import Mathlib

/-!
Verification of the Agent Dispatch & Scheduling subsystem
(`src/load_balancer.py` and `src/scheduler.py`).

The Python code is shallowly embedded: each method becomes a pure Lean
function over an explicit state record.  Machine clock readings
(`time.time()`, `datetime.now()`) are passed in as an `Int` parameter
`now`; floating point response times are modelled as `Rat`; the external
`agent_factory` module (not under `src/`) and the external time parser
(`datetime.fromisoformat`) are modelled as explained at their
definitions.  Python dictionaries with string keys become functions out
of `String` (resp. `Nat` for the job map, see `TaskScheduler`).
-/

namespace APIBackend

/-- Update one key of a map modelled as a function (Python `d[k] = v`). -/
def updMap {κ α : Type} [DecidableEq κ] (m : κ → α) (k : κ) (v : α) : κ → α :=
  fun x => if x = k then v else m x

/-! ## Load balancer (`src/load_balancer.py`) -/

/-- `LoadBalancingAlgorithm` enum (`src/load_balancer.py` lines 20-24). -/
inductive LoadBalancingAlgorithm where
  | ROUND_ROBIN
  | LEAST_CONNECTIONS
  | WEIGHTED_ROUND_ROBIN
  | RESPONSE_TIME
deriving DecidableEq, Repr

/-- `AgentInstance` dataclass (`src/load_balancer.py` lines 26-38).
`agent: Any` holds the external worker handle; it is modelled as the
string returned by `agentFactoryGet`.  `total_response_time: float` is
modelled as a rational number. -/
structure AgentInstance where
  agent_id : String
  agent_type : String
  agent : String
  weight : Nat
  active_connections : Nat
  total_requests : Nat
  total_response_time : Rat
  last_used : Int
  health_status : String
  created_at : Int
deriving DecidableEq, Repr

/-- `LoadBalancer` state (`src/load_balancer.py` lines 43-55).
`agent_pools` is a `defaultdict(list)` and `round_robin_counters` a
`defaultdict(int)`: both are modelled as total functions whose value at
an untouched key is the default (`[]`, `0`).  The code never
distinguishes an absent key from a key holding the default, so this is
observationally faithful.  `agent_weights` is a plain dict, hence
`Option`-valued. -/
structure LoadBalancer where
  algorithm : LoadBalancingAlgorithm
  agent_pools : String → List AgentInstance
  round_robin_counters : String → Nat
  agent_weights : String → Option Nat

/-- Modelled from the spec: `AgentFactory.get_agent` comes from the
`agent_factory` module, which is not under `src/`.  Spec section 6:
"WorkerFactory.create(worker_type) → WorkerHandle: must succeed for
every worker_type the system is configured to know about".  The worker
handle itself is an abstract external capability; it is modelled as a
string tag derived from the worker type. -/
def agentFactoryGet (agent_type : String) : String := agent_type

/-- The initial `agent_weights` dict (`src/load_balancer.py` lines 51-55). -/
def defaultAgentWeights : String → Option Nat := fun t =>
  if t = "Dabby Consultant" then some 3
  else if t = "Auditor Agent" then some 2
  else if t = "Tax Agent" then some 2
  else none

/-- `LoadBalancer._create_agent_instance` (`src/load_balancer.py` lines 79-96):
builds a fresh healthy instance (dataclass defaults: zero metrics,
`health_status = "healthy"`) and appends it to the type's pool.
Returns the new instance together with the updated state. -/
def create_agent_instance (lb : LoadBalancer) (now : Int) (agent_type : String) :
    AgentInstance × LoadBalancer :=
  let n := (lb.agent_pools agent_type).length
  let inst : AgentInstance :=
    { agent_id := agent_type ++ "_" ++ toString n
      agent_type := agent_type
      agent := agentFactoryGet agent_type
      weight := (lb.agent_weights agent_type).getD 1
      active_connections := 0
      total_requests := 0
      total_response_time := 0
      last_used := 0
      health_status := "healthy"
      created_at := now }
  let pools' := updMap lb.agent_pools agent_type ((lb.agent_pools agent_type) ++ [inst])
  (inst, { lb with agent_pools := pools' })

/-- The health filter used by `get_agent` (`src/load_balancer.py` line 105). -/
def healthyP (inst : AgentInstance) : Bool := inst.health_status = "healthy"

/-- Positions (pool indices) of the healthy instances of a pool, starting
from index `k`.  This encodes the Python object identity of the filtered
list `[inst for inst in pool if inst.health_status == "healthy"]`: the
list of positions in the pool that the filtered references occupy. -/
def healthyIndicesFrom (k : Nat) : List AgentInstance → List Nat
  | [] => []
  | i :: is =>
      if healthyP i then k :: healthyIndicesFrom (k + 1) is
      else healthyIndicesFrom (k + 1) is

/-- Pool indices of the healthy instances. -/
def healthyIndices (pool : List AgentInstance) : List Nat :=
  healthyIndicesFrom 0 pool

/-- Index of the first minimal element of a list of keys (the semantics of
Python `min`, which keeps the earliest element on ties), auxiliary loop. -/
def argminFirstAux (best : Rat) (bi i : Nat) : List Rat → Nat
  | [] => bi
  | x :: xs => if x < best then argminFirstAux x i (i + 1) xs
               else argminFirstAux best bi (i + 1) xs

/-- Index of the first minimal element (`min(..., key=...)`); `none` models
the `ValueError` Python `min` raises on an empty sequence. -/
def argminFirst : List Rat → Option Nat
  | [] => none
  | x :: xs => some (argminFirstAux x 0 1 xs)

/-- `LoadBalancer._round_robin_select` (`src/load_balancer.py` lines 136-141),
returning the selected position in `instances` and the updated state.
The `none` case models the `ZeroDivisionError` of `counter % 0` on an
empty candidate list. -/
def round_robin_select (lb : LoadBalancer) (instances : List AgentInstance)
    (agent_type : String) : Option (Nat × LoadBalancer) :=
  if instances.length = 0 then none
  else
    let counter := lb.round_robin_counters agent_type
    let counters' := updMap lb.round_robin_counters agent_type
      ((counter + 1) % instances.length)
    some (counter % instances.length, { lb with round_robin_counters := counters' })

/-- The accumulating-weight walk of `_weighted_round_robin_select`
(`src/load_balancer.py` lines 156-161): the source keeps a running
`current_weight` and returns the first instance whose weight band
contains `target`; equivalently, subtract each weight from `target`
until it falls below the head weight. -/
def wrrWalk : List Nat → Nat → Option Nat
  | [], _ => none
  | w :: ws, target =>
      if target < w then some 0
      else (wrrWalk ws (target - w)).map (· + 1)

/-- `LoadBalancer._weighted_round_robin_select` (`src/load_balancer.py`
lines 147-164).  The `none` case models the `ZeroDivisionError` of
`counter % total_weight` when the total weight is zero.  When the walk
finds a band the counter is incremented by one (the source does *not*
reduce it modulo the total weight); the unreachable fall-through
`return instances[0]` is kept as the final case. -/
def weighted_round_robin_select (lb : LoadBalancer) (instances : List AgentInstance)
    (agent_type : String) : Option (Nat × LoadBalancer) :=
  let total_weight := (instances.map (fun i => i.weight)).sum
  if total_weight = 0 then none
  else
    let counter := lb.round_robin_counters agent_type
    let target := counter % total_weight
    match wrrWalk (instances.map (fun i => i.weight)) target with
    | some j =>
        let counters' := updMap lb.round_robin_counters agent_type (counter + 1)
        some (j, { lb with round_robin_counters := counters' })
    | none => some (0, lb)

/-- The `avg_response_time` key of `_response_time_select`
(`src/load_balancer.py` lines 168-171). -/
def avg_response_time (inst : AgentInstance) : Rat :=
  if inst.total_requests = 0 then 0
  else inst.total_response_time / (inst.total_requests : Rat)

/-- `LoadBalancer._select_instance` (`src/load_balancer.py` lines 123-134),
returning the selected position in `instances` plus the updated state. -/
def select_instance (lb : LoadBalancer) (instances : List AgentInstance)
    (agent_type : String) : Option (Nat × LoadBalancer) :=
  match lb.algorithm with
  | .ROUND_ROBIN => round_robin_select lb instances agent_type
  | .LEAST_CONNECTIONS =>
      (argminFirst (instances.map (fun i => (i.active_connections : Rat)))).map
        (fun j => (j, lb))
  | .WEIGHTED_ROUND_ROBIN => weighted_round_robin_select lb instances agent_type
  | .RESPONSE_TIME =>
      (argminFirst (instances.map avg_response_time)).map (fun j => (j, lb))

/-- The metric update applied to the selected instance
(`src/load_balancer.py` lines 117-119). -/
def bumpSelected (inst : AgentInstance) (now : Int) : AgentInstance :=
  { inst with
      active_connections := inst.active_connections + 1
      total_requests := inst.total_requests + 1
      last_used := now }

/-- `LoadBalancer.get_agent` (`src/load_balancer.py` lines 98-121).
The source returns `selected_instance.agent`; to express Python object
identity the model returns the selected pool position together with the
selected (metric-updated) instance.  A `none` first component models an
exception escaping the call; the second component is the state at that
point (mutations already performed are kept, as they are in Python). -/
def get_agent (lb : LoadBalancer) (now : Int) (agent_type : String) :
    Option (Nat × AgentInstance) × LoadBalancer :=
  let lb1 := if (lb.agent_pools agent_type).isEmpty
             then (create_agent_instance lb now agent_type).2 else lb
  let idxs0 := healthyIndices (lb1.agent_pools agent_type)
  let step2 : List Nat × LoadBalancer :=
    if idxs0.isEmpty then
      let created := create_agent_instance lb1 now agent_type
      ([(created.2.agent_pools agent_type).length - 1], created.2)
    else (idxs0, lb1)
  let idxs := step2.1
  let lb2 := step2.2
  let pool := lb2.agent_pools agent_type
  let instances := idxs.filterMap (fun i => pool[i]?)
  match select_instance lb2 instances agent_type with
  | none => (none, lb2)
  | some (j, lb3) =>
    match idxs[j]? with
    | none => (none, lb3)
    | some pi =>
      match pool[pi]? with
      | none => (none, lb3)
      | some sel =>
        let sel2 := bumpSelected sel now
        let pools' := updMap lb3.agent_pools agent_type (pool.set pi sel2)
        (some (pi, sel2), { lb3 with agent_pools := pools' })

/-- `LoadBalancer.add_agent_instance` (`src/load_balancer.py` lines 189-193):
create an instance, then overwrite its weight with the argument
(the source mutates the pooled object). -/
def add_agent_instance (lb : LoadBalancer) (now : Int) (agent_type : String)
    (weight : Nat) : String × LoadBalancer :=
  let created := create_agent_instance lb now agent_type
  let inst := created.1
  let lb' := created.2
  let pool := lb'.agent_pools agent_type
  let pools' := updMap lb'.agent_pools agent_type
    (pool.set (pool.length - 1) { inst with weight := weight })
  (inst.agent_id, { lb' with agent_pools := pools' })

/-- Removal of the first pool entry with a given id, as the loop of
`remove_agent_instance` does (`src/load_balancer.py` lines 200-208);
`none` when no entry matches. -/
def removeFirstById : List AgentInstance → String → Option (List AgentInstance)
  | [], _ => none
  | i :: is, aid =>
      if i.agent_id = aid then some is
      else (removeFirstById is aid).map (fun l => i :: l)

/-- `LoadBalancer.remove_agent_instance` (`src/load_balancer.py` lines 195-209). -/
def remove_agent_instance (lb : LoadBalancer) (agent_type : String)
    (agent_id : String) : Bool × LoadBalancer :=
  match removeFirstById (lb.agent_pools agent_type) agent_id with
  | some pool' =>
      let pools' := updMap lb.agent_pools agent_type pool'
      (true, { lb with agent_pools := pools' })
  | none => (false, lb)

/-- `LoadBalancer.scale_up` (`src/load_balancer.py` lines 211-215):
`instances_to_add` calls of `add_agent_instance(agent_type)` (which uses
its default `weight = 1`).  There is no ceiling check. -/
def scale_up (lb : LoadBalancer) (now : Int) (agent_type : String)
    (instances_to_add : Nat) : LoadBalancer :=
  (List.range instances_to_add).foldl
    (fun acc _ => (add_agent_instance acc now agent_type 1).2) lb

/-- `LoadBalancer.scale_down` (`src/load_balancer.py` lines 217-236):
refuses when the pool would drop to zero or below, otherwise removes the
`instances_to_remove` least-connected instances (stable sort by
`active_connections`), each by id. -/
def scale_down (lb : LoadBalancer) (agent_type : String)
    (instances_to_remove : Nat) : LoadBalancer :=
  let instances := lb.agent_pools agent_type
  if instances.length ≤ instances_to_remove then lb
  else
    let sorted := instances.mergeSort
      (fun a b => a.active_connections ≤ b.active_connections)
    (List.range instances_to_remove).foldl
      (fun acc i =>
        match sorted[i]? with
        | some inst => (remove_agent_instance acc agent_type inst.agent_id).2
        | none => acc) lb

/-- `LoadBalancer.auto_scale` (`src/load_balancer.py` lines 238-256).
Per worker type (the per-type bodies are independent, so the dict
iteration is modelled as a pointwise update; types absent from the dict
behave as empty pools, which the source skips):
scale up by one when the average connection count exceeds 70% of
`max_connections_per_agent = 10` and the pool is below five instances;
scale down by one when it is under 30% and the pool has more than one.
The source compares `avg > 0.7 * 10` and `avg < 0.3 * 10` on floats;
this is modelled by the exact comparisons `total > 7 * len` and
`total < 3 * len`. -/
def auto_scale (lb : LoadBalancer) (now : Int) : LoadBalancer :=
  { lb with agent_pools := fun t =>
      let instances := lb.agent_pools t
      if instances.isEmpty then instances
      else
        let total := (instances.map (fun i => i.active_connections)).sum
        if 7 * instances.length < total then
          if instances.length < 5 then (scale_up lb now t 1).agent_pools t
          else instances
        else if total < 3 * instances.length ∧ 1 < instances.length then
          (scale_down lb t 1).agent_pools t
        else instances }

/-- `LoadBalancer.__init__` together with `_initialize_agent_pools`
(`src/load_balancer.py` lines 43-77): two initial "Dabby Consultant"
instances, one "Auditor Agent", one "Tax Agent". -/
def initLoadBalancer (algorithm : LoadBalancingAlgorithm) (now : Int) : LoadBalancer :=
  let lb0 : LoadBalancer :=
    { algorithm := algorithm
      agent_pools := fun _ => []
      round_robin_counters := fun _ => 0
      agent_weights := defaultAgentWeights }
  let lb1 := (create_agent_instance lb0 now "Dabby Consultant").2
  let lb2 := (create_agent_instance lb1 now "Dabby Consultant").2
  let lb3 := (create_agent_instance lb2 now "Auditor Agent").2
  (create_agent_instance lb3 now "Tax Agent").2

/-- The load-balancer operations exposed to callers that the claims range
over (claim C5). -/
inductive LBOp where
  | acquire (now : Int) (agent_type : String)
  | scaleUp (now : Int) (agent_type : String) (n : Nat)
  | scaleDown (agent_type : String) (n : Nat)
  | autoScale (now : Int)

/-- One exposed load-balancer operation. -/
def stepLB (lb : LoadBalancer) : LBOp → LoadBalancer
  | .acquire now t => (get_agent lb now t).2
  | .scaleUp now t n => scale_up lb now t n
  | .scaleDown t n => scale_down lb t n
  | .autoScale now => auto_scale lb now

/-- A sequence of exposed load-balancer operations. -/
def runLB (lb : LoadBalancer) : List LBOp → LoadBalancer
  | [] => lb
  | op :: ops => runLB (stepLB lb op) ops

/-- The load-balancer state after `k` consecutive `get_agent` calls for
worker type `t` (claims C3 and C4 quantify over such runs). -/
def acquireIter (lb : LoadBalancer) (now : Int) (t : String) : Nat → LoadBalancer
  | 0 => lb
  | k + 1 => (get_agent (acquireIter lb now t k) now t).2

/-- The pool position selected by the `k`-th (0-based) of a run of
consecutive `get_agent` calls for worker type `t`; `none` if that call
raises.  Pool positions express Python object identity of instances. -/
def selIdx (lb : LoadBalancer) (now : Int) (t : String) (k : Nat) : Option Nat :=
  ((get_agent (acquireIter lb now t k) now t).1).map Prod.fst

/-- A healthy instance literal used to build concrete pools. -/
def mkPoolInst (aid t : String) (w : Nat) : AgentInstance :=
  { agent_id := aid
    agent_type := t
    agent := t
    weight := w
    active_connections := 0
    total_requests := 0
    total_response_time := 0
    last_used := 0
    health_status := "healthy"
    created_at := 0 }

/-- A concrete weighted-round-robin balancer: one pool "X" of three
healthy instances with weights [3, 2, 2] (total weight 7) and cursor 6. -/
def wrrThreeLB : LoadBalancer :=
  { algorithm := .WEIGHTED_ROUND_ROBIN
    agent_pools := fun s =>
      if s = "X" then [mkPoolInst "X_0" "X" 3, mkPoolInst "X_1" "X" 2,
        mkPoolInst "X_2" "X" 2] else []
    round_robin_counters := fun s => if s = "X" then 6 else 0
    agent_weights := fun _ => none }

/-- A concrete balancer whose only "X" instance is unhealthy. -/
def unhealthyLB : LoadBalancer :=
  { algorithm := .ROUND_ROBIN
    agent_pools := fun s =>
      if s = "X" then [{ mkPoolInst "X_0" "X" 1 with health_status := "unhealthy" }]
      else []
    round_robin_counters := fun _ => 0
    agent_weights := fun _ => none }

/-- A concrete round-robin balancer: one pool "X" of three healthy
instances, cursor 0. -/
def rrThreeLB : LoadBalancer :=
  { algorithm := .ROUND_ROBIN
    agent_pools := fun s =>
      if s = "X" then [mkPoolInst "X_0" "X" 1, mkPoolInst "X_1" "X" 1,
        mkPoolInst "X_2" "X" 1] else []
    round_robin_counters := fun _ => 0
    agent_weights := fun _ => none }

/-! ## Task scheduler (`src/scheduler.py`) -/

/-- One entry of the in-memory `self.tasks` dict (`src/scheduler.py`
lines 120-129 and the later mutations).  A Python dict that accrues
keys over the task's life is modelled as a structure whose later keys
are `Option`-valued.  `uuid.uuid4()` ids are modelled as fresh natural
numbers (see `TaskScheduler.nextId`); timestamps are `Int` seconds. -/
structure TaskInfo where
  task_id : Nat
  task_type : String
  session_id : String
  agent_type : String
  parameters : List (String × String)
  created_at : Int
  scheduled_for : Int
  status : String
  error : Option String
  result : Option String
  started_at : Option Int
  completed_at : Option Int
  failed_at : Option Int
  cancelled_at : Option Int
  rescheduled_at : Option Int
deriving DecidableEq, Repr

/-- `TaskScheduler` state (`src/scheduler.py` lines 27-34).
`tasks` is the in-memory task dict.  `pendingJobs` is the set of job
ids currently registered with the APScheduler engine (`add_job` /
`remove_job`); the engine fires a registered one-shot job at most once
and drops it from the store when it fires.  `nextId` models the supply
of fresh `uuid.uuid4()` identifiers: the next generated id. -/
structure TaskScheduler where
  tasks : Nat → Option TaskInfo
  pendingJobs : List Nat
  nextId : Nat

/-- The empty scheduler right after `__init__` (`src/scheduler.py`
lines 27-51): no tasks, nothing registered. -/
def initTaskScheduler : TaskScheduler :=
  { tasks := fun _ => none, pendingJobs := [], nextId := 0 }

/-- `TaskScheduler.schedule_task` (`src/scheduler.py` lines 99-153).
`parse` models the external `datetime.fromisoformat` (after the
`replace('Z', '+00:00')` normalisation): `none` is the `ValueError`
branch.  `timedelta(minutes=1)` is 60 seconds.  `register` models the
outcome of the `self.scheduler.add_job` call, which the source wraps in
`try/except`: `none` means it succeeded, `some msg` that it raised an
exception rendered as `msg`; in the latter case the already-stored
record (stored with status `"scheduled"` at line 132) is overwritten
with status `"failed"` and the error message, and the call still
returns the task id without raising. -/
def scheduleRunDate (parse : String → Option Int) (now : Int)
    (schedule_time : Option String) : Int :=
  match schedule_time with
  | some st =>
      match parse st with
      | some d => d
      | none => now + 60
  | none => now + 60

/-- The `task_info` dict built at `src/scheduler.py` lines 120-129. -/
def mkScheduledInfo (task_id : Nat) (task_type session_id agent_type : String)
    (parameters : List (String × String)) (created_at scheduled_for : Int) :
    TaskInfo :=
  { task_id := task_id
    task_type := task_type
    session_id := session_id
    agent_type := agent_type
    parameters := parameters
    created_at := created_at
    scheduled_for := scheduled_for
    status := "scheduled"
    error := none
    result := none
    started_at := none
    completed_at := none
    failed_at := none
    cancelled_at := none
    rescheduled_at := none }

def schedule_task (s : TaskScheduler) (parse : String → Option Int) (now : Int)
    (task_type session_id agent_type : String) (schedule_time : Option String)
    (parameters : List (String × String)) (register : Option String) :
    Nat × TaskScheduler :=
  let task_id := s.nextId
  let run_date := scheduleRunDate parse now schedule_time
  let task_info := mkScheduledInfo task_id task_type session_id agent_type
    parameters now run_date
  match register with
  | none =>
      let tasks' := updMap s.tasks task_id (some task_info)
      (task_id,
       { s with
           tasks := tasks'
           pendingJobs := task_id :: s.pendingJobs
           nextId := s.nextId + 1 })
  | some errMsg =>
      let failed := { task_info with status := "failed", error := some errMsg }
      let tasks' := updMap s.tasks task_id (some failed)
      (task_id, { s with tasks := tasks', nextId := s.nextId + 1 })

/-- `TaskScheduler._execute_task` (`src/scheduler.py` lines 155-193).
Unknown ids return with no state change.  Otherwise the record is moved
to `"running"` with `started_at` set, the per-`task_type` handler is run
(handlers call the external agent capability, whose outcome the
`outcome` parameter supplies), and the record is moved to
`"completed"` with the result, or to `"failed"` with the error. -/
def execute_task (s : TaskScheduler) (now : Int) (task_id : Nat)
    (outcome : Except String String) : TaskScheduler :=
  match s.tasks task_id with
  | none => s
  | some task_info =>
      let running := { task_info with status := "running", started_at := some now }
      match outcome with
      | .ok result =>
          let done :=
            { running with
                status := "completed"
                result := some result
                completed_at := some now }
          { s with tasks := updMap s.tasks task_id (some done) }
      | .error e =>
          let failed :=
            { running with
                status := "failed"
                error := some e
                failed_at := some now }
          { s with tasks := updMap s.tasks task_id (some failed) }

/-- The timer engine firing a job: APScheduler only invokes
`_execute_task(task_id)` for a job id currently registered in its job
store, and a one-shot `DateTrigger` job is dropped from the store when
it fires.  Ids never registered (or already fired, cancelled, or
removed) do not fire. -/
def fire_task (s : TaskScheduler) (now : Int) (task_id : Nat)
    (outcome : Except String String) : TaskScheduler :=
  if task_id ∈ s.pendingJobs then
    execute_task { s with pendingJobs := s.pendingJobs.erase task_id }
      now task_id outcome
  else s

/-- `TaskScheduler.cancel_task` (`src/scheduler.py` lines 268-287).
Unknown id or status other than `"scheduled"`: returns `false` with no
change.  Otherwise `remove_job` is called — modelled as succeeding
exactly when the id is registered (the `except` branch returning
`false` covers the other case) — the record moves to `"cancelled"`. -/
def cancel_task (s : TaskScheduler) (now : Int) (task_id : Nat) :
    Bool × TaskScheduler :=
  match s.tasks task_id with
  | none => (false, s)
  | some task_info =>
      if task_info.status = "scheduled" then
        if task_id ∈ s.pendingJobs then
          let cancelled := { task_info with status := "cancelled", cancelled_at := some now }
          let tasks' := updMap s.tasks task_id (some cancelled)
          (true, { s with tasks := tasks', pendingJobs := s.pendingJobs.erase task_id })
        else (false, s)
      else (false, s)

/-- `TaskScheduler.reschedule_task` (`src/scheduler.py` lines 289-328).
Checks, in source order: the id exists; the status is `"scheduled"`;
the new time parses (`parse` as in `schedule_task`).  Then `remove_job`
runs — it raises when the id is not registered, and the outer
`try/except` (lines 326-328) turns that into `false` with no state
change — followed by `add_job` with the same id.  `register` models the
outcome of that `add_job` call, exactly as in `schedule_task`: `none`
means it succeeded (the id stays registered and
`scheduled_for` / `rescheduled_at` are updated, status staying
`"scheduled"`); `some msg` means it raised, so the outer `except`
returns `false` after `remove_job` already deregistered the id — the
record is left untouched (the updates at lines 320-321 are never
reached) but the job's timer is gone. -/
def reschedule_task (s : TaskScheduler) (parse : String → Option Int) (now : Int)
    (task_id : Nat) (new_schedule_time : String) (register : Option String) :
    Bool × TaskScheduler :=
  match s.tasks task_id with
  | none => (false, s)
  | some task_info =>
      if task_info.status = "scheduled" then
        match parse new_schedule_time with
        | none => (false, s)
        | some run_date =>
            if task_id ∈ s.pendingJobs then
              match register with
              | none =>
                  let moved :=
                    { task_info with
                        scheduled_for := run_date
                        rescheduled_at := some now }
                  (true, { s with tasks := updMap s.tasks task_id (some moved) })
              | some _ =>
                  (false, { s with pendingJobs := s.pendingJobs.erase task_id })
            else (false, s)
      else (false, s)

/-- `TaskScheduler.get_task_status` (`src/scheduler.py` lines 253-255). -/
def get_task_status (s : TaskScheduler) (task_id : Nat) : Option TaskInfo :=
  s.tasks task_id

/-- The scheduler operations the claims range over (claim C2): the three
exposed calls plus the timer engine firing a registered job.  Each
operation carries the external inputs of that call (clock reading, time
parser outcome, `add_job` outcome, worker outcome). -/
inductive SchedOp where
  | schedule (parse : String → Option Int) (now : Int)
      (task_type session_id agent_type : String) (schedule_time : Option String)
      (parameters : List (String × String)) (register : Option String)
  | fire (now : Int) (task_id : Nat) (outcome : Except String String)
  | cancel (now : Int) (task_id : Nat)
  | reschedule (parse : String → Option Int) (now : Int) (task_id : Nat)
      (new_schedule_time : String) (register : Option String)

/-- One scheduler operation. -/
def stepSched (s : TaskScheduler) : SchedOp → TaskScheduler
  | .schedule parse now tt sid at_ st ps reg =>
      (schedule_task s parse now tt sid at_ st ps reg).2
  | .fire now id outcome => fire_task s now id outcome
  | .cancel now id => (cancel_task s now id).2
  | .reschedule parse now id nt reg => (reschedule_task s parse now id nt reg).2

/-- A sequence of scheduler operations. -/
def runSched (s : TaskScheduler) : List SchedOp → TaskScheduler
  | [] => s
  | op :: ops => runSched (stepSched s op) ops

/-- Status pairs reachable inside one scheduler operation: either no
change, or a path in the job state machine
`scheduled → running → (completed or failed)`, `scheduled → cancelled`,
together with the direct `scheduled → failed` step taken when timer
registration fails during `schedule_task`. -/
def allowedReach (a b : String) : Bool :=
  a = b ||
  (a = "scheduled" &&
    (b = "running" || b = "completed" || b = "failed" || b = "cancelled")) ||
  (a = "running" && (b = "completed" || b = "failed"))

/-- Terminal job statuses. -/
def terminalStatus (a : String) : Bool :=
  a = "completed" || a = "failed" || a = "cancelled"

/-- The state invariant of the scheduler, established from
`initTaskScheduler` by every operation sequence: a job id registered
with the timer engine has a record with status `"scheduled"` (the
converse can fail: a reschedule whose re-registration `add_job` raises
leaves a `"scheduled"` record with no registered timer); registered ids
are pairwise distinct and below the fresh id supply; ids not yet
generated have no record. -/
def SchedInv (s : TaskScheduler) : Prop :=
  (∀ id, id ∈ s.pendingJobs →
      ∃ info, s.tasks id = some info ∧ info.status = "scheduled") ∧
  (∀ k, s.nextId ≤ k → s.tasks k = none) ∧
  (∀ id, id ∈ s.pendingJobs → id < s.nextId) ∧
  s.pendingJobs.Nodup

/-- A concrete scheduler state used to instantiate theorems with
hypotheses: one successfully scheduled job (id 0). -/
def oneJobScheduler : TaskScheduler :=
  (schedule_task initTaskScheduler (fun _ => none) 0 "consultation" "sess"
    "Dabby Consultant" none [] none).2

/-- A concrete operation sequence: schedule one job (id 0) successfully. -/
def oneJobOps : List SchedOp :=
  [SchedOp.schedule (fun _ => none) 0 "consultation" "sess" "Dabby Consultant"
    none [] none]

/-- The record of the job scheduled by `oneJobOps`. -/
def oneJobInfo : TaskInfo :=
  mkScheduledInfo 0 "consultation" "sess" "Dabby Consultant" [] 0 60

/-- The record of the `oneJobOps` job after a successful fire at time 9. -/
def oneJobInfoDone : TaskInfo :=
  { oneJobInfo with
      status := "completed"
      started_at := some 9
      result := some "done"
      completed_at := some 9 }

/-! ## Helper lemmas -/

@[simp] theorem updMap_same {κ α : Type} [DecidableEq κ] (m : κ → α) (k : κ) (v : α) :
    updMap m k v k = v := by simp [updMap]

@[simp] theorem updMap_other {κ α : Type} [DecidableEq κ] (m : κ → α) (k x : κ) (v : α)
    (h : x ≠ k) : updMap m k v x = m x := by simp [updMap, h]

theorem updMap_eq_ite {κ α : Type} [DecidableEq κ] (m : κ → α) (k x : κ) (v : α) :
    updMap m k v x = if x = k then v else m x := rfl

@[simp] theorem mkScheduledInfo_status (i tt sid at_ ps ca sf) :
    (mkScheduledInfo i tt sid at_ ps ca sf).status = "scheduled" := rfl

theorem schedule_task_fst (s parse now tt sid at_ st ps register) :
    (schedule_task s parse now tt sid at_ st ps register).1 = s.nextId := by
  cases register <;> rfl

theorem schedule_task_none_tasks (s parse now tt sid at_ st ps) :
    (schedule_task s parse now tt sid at_ st ps none).2.tasks =
    updMap s.tasks s.nextId (some (mkScheduledInfo s.nextId tt sid at_
      ps now (scheduleRunDate parse now st))) := rfl

theorem schedule_task_none_pending (s parse now tt sid at_ st ps) :
    (schedule_task s parse now tt sid at_ st ps none).2.pendingJobs =
    s.nextId :: s.pendingJobs := rfl

theorem schedule_task_none_nextId (s parse now tt sid at_ st ps) :
    (schedule_task s parse now tt sid at_ st ps none).2.nextId = s.nextId + 1 := rfl

theorem schedule_task_some_tasks (s parse now tt sid at_ st ps errMsg) :
    (schedule_task s parse now tt sid at_ st ps (some errMsg)).2.tasks =
    updMap s.tasks s.nextId (some { mkScheduledInfo s.nextId tt sid at_
      ps now (scheduleRunDate parse now st) with
        status := "failed", error := some errMsg }) := rfl

theorem schedule_task_some_pending (s parse now tt sid at_ st ps errMsg) :
    (schedule_task s parse now tt sid at_ st ps (some errMsg)).2.pendingJobs =
    s.pendingJobs := rfl

theorem schedule_task_some_nextId (s parse now tt sid at_ st ps errMsg) :
    (schedule_task s parse now tt sid at_ st ps (some errMsg)).2.nextId =
    s.nextId + 1 := rfl

/-! ## Scheduler invariant -/

theorem schedInv_init : SchedInv initTaskScheduler := by
  refine ⟨?_, ?_, ?_, ?_⟩ <;> simp [initTaskScheduler]

theorem schedInv_schedule (s : TaskScheduler) (hinv : SchedInv s)
    (parse : String → Option Int) (now : Int) (tt sid at_ : String)
    (st : Option String) (ps : List (String × String)) (register : Option String) :
    SchedInv (schedule_task s parse now tt sid at_ st ps register).2 := by
  obtain ⟨h1, h3, h4, h5⟩ := hinv
  cases register with
  | none =>
      refine ⟨?_, ?_, ?_, ?_⟩
      · intro id hid
        rw [schedule_task_none_pending] at hid
        rw [schedule_task_none_tasks]
        rcases List.mem_cons.1 hid with h | h
        · subst h
          exact ⟨_, updMap_same _ _ _, rfl⟩
        · have hne : id ≠ s.nextId := Nat.ne_of_lt (h4 id h)
          obtain ⟨info, hinfo, hsti⟩ := h1 id h
          exact ⟨info, by rw [updMap_other _ _ _ _ hne]; exact hinfo, hsti⟩
      · intro k hk
        rw [schedule_task_none_nextId] at hk
        rw [schedule_task_none_tasks]
        have hne : k ≠ s.nextId := by omega
        rw [updMap_other _ _ _ _ hne]
        exact h3 k (by omega)
      · intro id hid
        rw [schedule_task_none_pending] at hid
        rw [schedule_task_none_nextId]
        rcases List.mem_cons.1 hid with h | h
        · subst h; omega
        · have := h4 id h; omega
      · rw [schedule_task_none_pending]
        have hfresh : s.nextId ∉ s.pendingJobs := fun h => absurd (h4 _ h) (by omega)
        exact List.nodup_cons.2 ⟨hfresh, h5⟩
  | some errMsg =>
      refine ⟨?_, ?_, ?_, ?_⟩
      · intro id hid
        rw [schedule_task_some_pending] at hid
        rw [schedule_task_some_tasks]
        have hne : id ≠ s.nextId := Nat.ne_of_lt (h4 id hid)
        obtain ⟨info, hinfo, hsti⟩ := h1 id hid
        exact ⟨info, by rw [updMap_other _ _ _ _ hne]; exact hinfo, hsti⟩
      · intro k hk
        rw [schedule_task_some_nextId] at hk
        rw [schedule_task_some_tasks]
        have hne : k ≠ s.nextId := by omega
        rw [updMap_other _ _ _ _ hne]
        exact h3 k (by omega)
      · intro id hid
        rw [schedule_task_some_pending] at hid
        rw [schedule_task_some_nextId]
        have := h4 id hid; omega
      · rw [schedule_task_some_pending]
        exact h5

theorem schedInv_fire (s : TaskScheduler) (hinv : SchedInv s) (now : Int)
    (task_id : Nat) (outcome : Except String String) :
    SchedInv (fire_task s now task_id outcome) := by
  obtain ⟨h1, h3, h4, h5⟩ := hinv
  unfold fire_task
  by_cases hmem : task_id ∈ s.pendingJobs
  · simp only [hmem, if_true]
    obtain ⟨info, hinfo, hst⟩ := h1 task_id hmem
    unfold execute_task
    simp only [hinfo]
    have hmem_erase : ∀ id, id ∈ s.pendingJobs.erase task_id ↔
        id ≠ task_id ∧ id ∈ s.pendingJobs := fun id => h5.mem_erase_iff
    have key : ∀ (newInfo : TaskInfo),
        SchedInv
          { tasks := updMap s.tasks task_id (some newInfo)
            pendingJobs := s.pendingJobs.erase task_id
            nextId := s.nextId } := by
      intro newInfo
      refine ⟨?_, ?_, ?_, ?_⟩
      · intro id hid
        dsimp only at hid ⊢
        obtain ⟨hne, hid'⟩ := (hmem_erase id).1 hid
        obtain ⟨i, hi, hsi⟩ := h1 id hid'
        exact ⟨i, by rw [updMap_other _ _ _ _ hne]; exact hi, hsi⟩
      · intro k hk
        dsimp only at hk ⊢
        have hlt := h4 task_id hmem
        have hne : k ≠ task_id := by omega
        rw [updMap_other _ _ _ _ hne]
        exact h3 k hk
      · intro id hid
        dsimp only at hid ⊢
        exact h4 id (List.mem_of_mem_erase hid)
      · exact h5.erase _
    cases outcome with
    | ok r => exact key _
    | error e => exact key _
  · simpa [hmem] using ⟨h1, h3, h4, h5⟩

theorem schedInv_cancel (s : TaskScheduler) (hinv : SchedInv s) (now : Int)
    (task_id : Nat) : SchedInv (cancel_task s now task_id).2 := by
  obtain ⟨h1, h3, h4, h5⟩ := hinv
  unfold cancel_task
  cases hinfo : s.tasks task_id with
  | none => exact ⟨h1, h3, h4, h5⟩
  | some info =>
      by_cases hst : info.status = "scheduled"
      · by_cases hmem : task_id ∈ s.pendingJobs
        · simp only [hst, if_true, hmem]
          have hmem_erase : ∀ id, id ∈ s.pendingJobs.erase task_id ↔
              id ≠ task_id ∧ id ∈ s.pendingJobs := fun id => h5.mem_erase_iff
          refine ⟨?_, ?_, ?_, ?_⟩
          · intro id hid
            dsimp only at hid ⊢
            obtain ⟨hne, hid'⟩ := (hmem_erase id).1 hid
            obtain ⟨i, hi, hsi⟩ := h1 id hid'
            exact ⟨i, by rw [updMap_other _ _ _ _ hne]; exact hi, hsi⟩
          · intro k hk
            dsimp only at hk ⊢
            have hlt := h4 task_id hmem
            have hne : k ≠ task_id := by omega
            rw [updMap_other _ _ _ _ hne]
            exact h3 k hk
          · intro id hid
            dsimp only at hid ⊢
            exact h4 id (List.mem_of_mem_erase hid)
          · exact h5.erase _
        · simpa [hst, hmem] using ⟨h1, h3, h4, h5⟩
      · simpa [hst] using ⟨h1, h3, h4, h5⟩

theorem schedInv_reschedule (s : TaskScheduler) (hinv : SchedInv s)
    (parse : String → Option Int) (now : Int) (task_id : Nat) (nt : String)
    (register : Option String) :
    SchedInv (reschedule_task s parse now task_id nt register).2 := by
  obtain ⟨h1, h3, h4, h5⟩ := hinv
  unfold reschedule_task
  cases hinfo : s.tasks task_id with
  | none => exact ⟨h1, h3, h4, h5⟩
  | some info =>
      by_cases hst : info.status = "scheduled"
      · cases hparse : parse nt with
        | none => simpa [hst] using ⟨h1, h3, h4, h5⟩
        | some d =>
            by_cases hmem : task_id ∈ s.pendingJobs
            · cases register with
              | none =>
                  simp only [hst, if_true, hmem]
                  refine ⟨?_, ?_, ?_, ?_⟩
                  · intro id hid
                    dsimp only at hid ⊢
                    by_cases hne : id = task_id
                    · subst hne
                      exact ⟨_, updMap_same _ _ _, rfl⟩
                    · obtain ⟨i, hi, hsi⟩ := h1 id hid
                      exact ⟨i, by rw [updMap_other _ _ _ _ hne]; exact hi, hsi⟩
                  · intro k hk
                    dsimp only at hk ⊢
                    have hlt := h4 task_id hmem
                    have hne : k ≠ task_id := by omega
                    rw [updMap_other _ _ _ _ hne]
                    exact h3 k hk
                  · exact h4
                  · exact h5
              | some msg =>
                  simp only [hst, if_true, hmem]
                  refine ⟨?_, ?_, ?_, ?_⟩
                  · intro id hid
                    dsimp only at hid ⊢
                    exact h1 id (List.mem_of_mem_erase hid)
                  · intro k hk
                    dsimp only at hk ⊢
                    exact h3 k hk
                  · intro id hid
                    dsimp only at hid ⊢
                    exact h4 id (List.mem_of_mem_erase hid)
                  · exact h5.erase _
            · simpa [hst, hmem] using ⟨h1, h3, h4, h5⟩
      · simpa [hst] using ⟨h1, h3, h4, h5⟩

theorem schedInv_step (s : TaskScheduler) (op : SchedOp) (hinv : SchedInv s) :
    SchedInv (stepSched s op) := by
  cases op with
  | schedule parse now tt sid at_ st ps reg =>
      exact schedInv_schedule s hinv parse now tt sid at_ st ps reg
  | fire now id outcome => exact schedInv_fire s hinv now id outcome
  | cancel now id => exact schedInv_cancel s hinv now id
  | reschedule parse now id nt reg =>
      exact schedInv_reschedule s hinv parse now id nt reg

theorem schedInv_run (s : TaskScheduler) (ops : List SchedOp) (hinv : SchedInv s) :
    SchedInv (runSched s ops) := by
  induction ops generalizing s with
  | nil => exact hinv
  | cons op ops ih => exact ih _ (schedInv_step s op hinv)

/-! ## Characterisations of the scheduler operations -/

theorem execute_task_not_found (s : TaskScheduler) (now : Int) (id : Nat)
    (outcome : Except String String) (h : s.tasks id = none) :
    execute_task s now id outcome = s := by
  unfold execute_task; rw [h]

theorem execute_task_ok (s : TaskScheduler) (now : Int) (id : Nat) (info : TaskInfo)
    (r : String) (h : s.tasks id = some info) :
    execute_task s now id (Except.ok r) =
    { s with tasks := updMap s.tasks id (some
        { info with
            status := "completed"
            started_at := some now
            result := some r
            completed_at := some now }) } := by
  unfold execute_task; rw [h]

theorem execute_task_error (s : TaskScheduler) (now : Int) (id : Nat) (info : TaskInfo)
    (e : String) (h : s.tasks id = some info) :
    execute_task s now id (Except.error e) =
    { s with tasks := updMap s.tasks id (some
        { info with
            status := "failed"
            started_at := some now
            error := some e
            failed_at := some now }) } := by
  unfold execute_task; rw [h]

theorem cancel_task_not_found (s : TaskScheduler) (now : Int) (id : Nat)
    (h : s.tasks id = none) : cancel_task s now id = (false, s) := by
  unfold cancel_task; rw [h]

theorem cancel_task_wrong_status (s : TaskScheduler) (now : Int) (id : Nat)
    (info : TaskInfo) (h : s.tasks id = some info)
    (hst : info.status ≠ "scheduled") : cancel_task s now id = (false, s) := by
  unfold cancel_task; rw [h]; simp [hst]

theorem cancel_task_not_pending (s : TaskScheduler) (now : Int) (id : Nat)
    (info : TaskInfo) (h : s.tasks id = some info)
    (hst : info.status = "scheduled") (hm : id ∉ s.pendingJobs) :
    cancel_task s now id = (false, s) := by
  unfold cancel_task; rw [h]; simp [hst, hm]

theorem cancel_task_success (s : TaskScheduler) (now : Int) (id : Nat)
    (info : TaskInfo) (h : s.tasks id = some info)
    (hst : info.status = "scheduled") (hm : id ∈ s.pendingJobs) :
    cancel_task s now id =
    (true,
     { s with
         tasks := updMap s.tasks id (some
           { info with status := "cancelled", cancelled_at := some now })
         pendingJobs := s.pendingJobs.erase id }) := by
  unfold cancel_task; rw [h]; simp [hst, hm]

theorem reschedule_task_not_found (s : TaskScheduler) (parse : String → Option Int)
    (now : Int) (id : Nat) (nt : String) (register : Option String)
    (h : s.tasks id = none) :
    reschedule_task s parse now id nt register = (false, s) := by
  unfold reschedule_task; rw [h]

theorem reschedule_task_wrong_status (s : TaskScheduler) (parse : String → Option Int)
    (now : Int) (id : Nat) (nt : String) (register : Option String) (info : TaskInfo)
    (h : s.tasks id = some info) (hst : info.status ≠ "scheduled") :
    reschedule_task s parse now id nt register = (false, s) := by
  unfold reschedule_task; rw [h]; simp [hst]

theorem reschedule_task_bad_time (s : TaskScheduler) (parse : String → Option Int)
    (now : Int) (id : Nat) (nt : String) (register : Option String) (info : TaskInfo)
    (h : s.tasks id = some info) (hst : info.status = "scheduled")
    (hp : parse nt = none) : reschedule_task s parse now id nt register = (false, s) := by
  unfold reschedule_task; rw [h]; simp [hst, hp]

theorem reschedule_task_not_pending (s : TaskScheduler) (parse : String → Option Int)
    (now : Int) (id : Nat) (nt : String) (register : Option String) (info : TaskInfo)
    (d : Int) (h : s.tasks id = some info) (hst : info.status = "scheduled")
    (hp : parse nt = some d) (hm : id ∉ s.pendingJobs) :
    reschedule_task s parse now id nt register = (false, s) := by
  unfold reschedule_task; rw [h]; simp [hst, hp, hm]

theorem reschedule_task_success (s : TaskScheduler) (parse : String → Option Int)
    (now : Int) (id : Nat) (nt : String) (info : TaskInfo) (d : Int)
    (h : s.tasks id = some info) (hst : info.status = "scheduled")
    (hp : parse nt = some d) (hm : id ∈ s.pendingJobs) :
    reschedule_task s parse now id nt none =
    (true,
     { s with
         tasks := updMap s.tasks id (some
           { info with scheduled_for := d, rescheduled_at := some now }) }) := by
  unfold reschedule_task; rw [h]; simp [hst, hp, hm]

theorem reschedule_task_register_fail (s : TaskScheduler) (parse : String → Option Int)
    (now : Int) (id : Nat) (nt : String) (info : TaskInfo) (d : Int) (msg : String)
    (h : s.tasks id = some info) (hst : info.status = "scheduled")
    (hp : parse nt = some d) (hm : id ∈ s.pendingJobs) :
    reschedule_task s parse now id nt (some msg) =
    (false, { s with pendingJobs := s.pendingJobs.erase id }) := by
  unfold reschedule_task; rw [h]; simp [hst, hp, hm]

@[simp] theorem allowedReach_refl (a : String) : allowedReach a a = true := by
  simp [allowedReach]

/-- Per-operation shape of a job record's status change (helper for the
amended claim C2): a single scheduler operation moves each existing
record's status only along `allowedReach`, never changes a record whose
status is terminal, and a `reschedule` operation never changes any
record's status. -/
theorem sched_status_step (s : TaskScheduler) (hinv : SchedInv s) (op : SchedOp)
    (id : Nat) (info info' : TaskInfo)
    (h : s.tasks id = some info)
    (h' : (stepSched s op).tasks id = some info') :
    allowedReach info.status info'.status = true ∧
    (terminalStatus info.status = true → info' = info) ∧
    (∀ parse now tid nt register, op = SchedOp.reschedule parse now tid nt register →
      info'.status = info.status) := by
  obtain ⟨h1, h3, h4, h5⟩ := hinv
  have hlt : id < s.nextId := by
    by_contra hge
    rw [h3 id (by omega)] at h
    cases h
  cases op with
  | schedule parse now tt sid at_ st ps reg =>
      have hne : id ≠ s.nextId := by omega
      have heq : info' = info := by
        cases reg with
        | none =>
            rw [stepSched, schedule_task_none_tasks, updMap_other _ _ _ _ hne, h] at h'
            cases h'; rfl
        | some msg =>
            rw [stepSched, schedule_task_some_tasks, updMap_other _ _ _ _ hne, h] at h'
            cases h'; rfl
      subst heq
      exact ⟨allowedReach_refl _, fun _ => rfl, by intro _ _ _ _ _ hop; cases hop⟩
  | fire now f outcome =>
      rw [stepSched] at h'
      unfold fire_task at h'
      by_cases hf : f ∈ s.pendingJobs
      · simp only [hf, if_true] at h'
        obtain ⟨i0, hi0, hsti0⟩ := h1 f hf
        by_cases hne : id = f
        · subst hne
          rw [h] at hi0; cases hi0
          have hmid : ({ s with pendingJobs := s.pendingJobs.erase id } :
              TaskScheduler).tasks id = some info := h
          cases outcome with
          | ok r =>
              rw [execute_task_ok _ now id info r hmid] at h'
              dsimp only at h'
              rw [updMap_same] at h'
              cases h'
              refine ⟨?_, ?_, ?_⟩
              · simp [allowedReach, hsti0]
              · intro ht; rw [hsti0] at ht; simp [terminalStatus] at ht
              · intro _ _ _ _ _ hop; cases hop
          | error e =>
              rw [execute_task_error _ now id info e hmid] at h'
              dsimp only at h'
              rw [updMap_same] at h'
              cases h'
              refine ⟨?_, ?_, ?_⟩
              · simp [allowedReach, hsti0]
              · intro ht; rw [hsti0] at ht; simp [terminalStatus] at ht
              · intro _ _ _ _ _ hop; cases hop
        · have hmid : ({ s with pendingJobs := s.pendingJobs.erase f } :
              TaskScheduler).tasks f = some i0 := hi0
          have heq : info' = info := by
            cases outcome with
            | ok r =>
                rw [execute_task_ok _ now f i0 r hmid] at h'
                dsimp only at h'
                rw [updMap_other _ _ _ _ hne, h] at h'
                cases h'; rfl
            | error e =>
                rw [execute_task_error _ now f i0 e hmid] at h'
                dsimp only at h'
                rw [updMap_other _ _ _ _ hne, h] at h'
                cases h'; rfl
          subst heq
          exact ⟨allowedReach_refl _, fun _ => rfl, by intro _ _ _ _ _ hop; cases hop⟩
      · simp only [hf, if_false] at h'
        rw [h] at h'; cases h'
        exact ⟨allowedReach_refl _, fun _ => rfl, by intro _ _ _ _ _ hop; cases hop⟩
  | cancel now tid =>
      rw [stepSched] at h'
      cases hi0 : s.tasks tid with
      | none =>
          rw [cancel_task_not_found _ _ _ hi0] at h'
          rw [h] at h'; cases h'
          exact ⟨allowedReach_refl _, fun _ => rfl, by intro _ _ _ _ _ hop; cases hop⟩
      | some i0 =>
          by_cases hst0 : i0.status = "scheduled"
          · by_cases hm : tid ∈ s.pendingJobs
            · rw [cancel_task_success _ _ _ _ hi0 hst0 hm] at h'
              dsimp only at h'
              by_cases hne : id = tid
              · subst hne
                rw [h] at hi0; cases hi0
                rw [updMap_same] at h'
                cases h'
                refine ⟨?_, ?_, ?_⟩
                · simp [allowedReach, hst0]
                · intro ht; rw [hst0] at ht; simp [terminalStatus] at ht
                · intro _ _ _ _ _ hop; cases hop
              · rw [updMap_other _ _ _ _ hne, h] at h'
                cases h'
                exact ⟨allowedReach_refl _, fun _ => rfl, by intro _ _ _ _ _ hop; cases hop⟩
            · rw [cancel_task_not_pending _ _ _ _ hi0 hst0 hm] at h'
              rw [h] at h'; cases h'
              exact ⟨allowedReach_refl _, fun _ => rfl, by intro _ _ _ _ _ hop; cases hop⟩
          · rw [cancel_task_wrong_status _ _ _ _ hi0 hst0] at h'
            rw [h] at h'; cases h'
            exact ⟨allowedReach_refl _, fun _ => rfl, by intro _ _ _ _ _ hop; cases hop⟩
  | reschedule parse now tid nt reg =>
      rw [stepSched] at h'
      cases hi0 : s.tasks tid with
      | none =>
          rw [reschedule_task_not_found _ _ _ _ _ _ hi0] at h'
          rw [h] at h'; cases h'
          exact ⟨allowedReach_refl _, fun _ => rfl, fun _ _ _ _ _ _ => rfl⟩
      | some i0 =>
          by_cases hst0 : i0.status = "scheduled"
          · cases hp : parse nt with
            | none =>
                rw [reschedule_task_bad_time _ _ _ _ _ _ _ hi0 hst0 hp] at h'
                rw [h] at h'; cases h'
                exact ⟨allowedReach_refl _, fun _ => rfl, fun _ _ _ _ _ _ => rfl⟩
            | some d =>
                by_cases hm : tid ∈ s.pendingJobs
                · cases reg with
                  | none =>
                      rw [reschedule_task_success _ _ _ _ _ _ _ hi0 hst0 hp hm] at h'
                      dsimp only at h'
                      by_cases hne : id = tid
                      · subst hne
                        rw [h] at hi0; cases hi0
                        rw [updMap_same] at h'
                        cases h'
                        refine ⟨allowedReach_refl _, ?_, fun _ _ _ _ _ _ => rfl⟩
                        intro ht; rw [hst0] at ht; simp [terminalStatus] at ht
                      · rw [updMap_other _ _ _ _ hne, h] at h'
                        cases h'
                        exact ⟨allowedReach_refl _, fun _ => rfl, fun _ _ _ _ _ _ => rfl⟩
                  | some msg =>
                      rw [reschedule_task_register_fail _ _ _ _ _ _ d msg
                        hi0 hst0 hp hm] at h'
                      dsimp only at h'
                      rw [h] at h'; cases h'
                      exact ⟨allowedReach_refl _, fun _ => rfl, fun _ _ _ _ _ _ => rfl⟩
                · rw [reschedule_task_not_pending _ _ _ _ _ _ _ _ hi0 hst0 hp hm] at h'
                  rw [h] at h'; cases h'
                  exact ⟨allowedReach_refl _, fun _ => rfl, fun _ _ _ _ _ _ => rfl⟩
          · rw [reschedule_task_wrong_status _ _ _ _ _ _ _ hi0 hst0] at h'
            rw [h] at h'; cases h'
            exact ⟨allowedReach_refl _, fun _ => rfl, fun _ _ _ _ _ _ => rfl⟩

/-! ## Claims about the scheduler -/

/-- Claim C2, amended.  For every job and every sequence of scheduler
operations from the initial scheduler, a job record's status moves only
along `scheduled → running → (completed or failed)`,
`scheduled → cancelled`, or — the amendment — directly
`scheduled → failed` when timer registration fails inside
`schedule_task`; `reschedule` keeps the status unchanged (`scheduled`
at its only applicable state); and no operation changes a record whose
status is terminal.  (At whole-call granularity the intermediate
`running` state of a fire is folded into `allowedReach`.) -/
theorem c2_job_state_machine_amended (ops : List SchedOp) (op : SchedOp) (id : Nat)
    (info info' : TaskInfo)
    (h : (runSched initTaskScheduler ops).tasks id = some info)
    (h' : (stepSched (runSched initTaskScheduler ops) op).tasks id = some info') :
    allowedReach info.status info'.status = true ∧
    (terminalStatus info.status = true → info' = info) ∧
    (∀ parse now tid nt register, op = SchedOp.reschedule parse now tid nt register →
      info'.status = info.status) :=
  sched_status_step _ (schedInv_run _ ops schedInv_init) op id info info' h h'

/-- Witness for the amended claim C2 at a concrete run: schedule one job,
then let the timer fire it successfully. -/
theorem c2_job_state_machine_amended_witness :
    allowedReach oneJobInfo.status oneJobInfoDone.status = true ∧
    (terminalStatus oneJobInfo.status = true → oneJobInfoDone = oneJobInfo) :=
  ⟨(c2_job_state_machine_amended oneJobOps (SchedOp.fire 9 0 (Except.ok "done")) 0
      oneJobInfo oneJobInfoDone (by decide) (by decide)).1,
   (c2_job_state_machine_amended oneJobOps (SchedOp.fire 9 0 (Except.ok "done")) 0
      oneJobInfo oneJobInfoDone (by decide) (by decide)).2.1⟩

/-- Claim C2 counterexample.  The claim as stated says a job never becomes
`failed` without first being `running` (and `running` always records
`started_at`).  But scheduling a job while timer registration fails
(`add_job` raising, `src/scheduler.py` lines 148-151) produces a
reachable job whose status is `"failed"` while `started_at` is still
`none`: the stored record went `scheduled → failed` directly, never
passing through `running`. -/
theorem c2_counterexample :
    ((runSched initTaskScheduler
        [SchedOp.schedule (fun _ => none) 0 "file_analysis" "sess" "Auditor Agent"
          none [] (some "boom")]).tasks 0).map
      (fun i => (i.status, i.started_at)) = some ("failed", none) := by decide

/-- Exact success/failure characterisation of `cancel_task`
(`src/scheduler.py` lines 268-287): `true` exactly when the record
exists with status `"scheduled"` and its timer is still registered
(`remove_job` raises otherwise and the `except` returns `false`);
every `false` path leaves the whole state unchanged. -/
theorem cancel_task_spec (s : TaskScheduler) (now : Int) (id : Nat) :
    ((cancel_task s now id).1 = true ↔
      ∃ info, s.tasks id = some info ∧ info.status = "scheduled" ∧
        id ∈ s.pendingJobs) ∧
    ((cancel_task s now id).1 = true →
      ∃ info', (cancel_task s now id).2.tasks id = some info' ∧
        info'.status = "cancelled") ∧
    ((cancel_task s now id).1 = false → (cancel_task s now id).2 = s) := by
  cases hi : s.tasks id with
  | none =>
      rw [cancel_task_not_found _ _ _ hi]
      exact ⟨by simp, by simp, fun _ => rfl⟩
  | some info =>
      by_cases hst : info.status = "scheduled"
      · by_cases hm : id ∈ s.pendingJobs
        · rw [cancel_task_success _ _ _ _ hi hst hm]
          refine ⟨?_, ?_, ?_⟩
          · simp [hst, hm]
          · intro _
            exact ⟨_, updMap_same _ _ _, rfl⟩
          · intro hfalse; cases hfalse
        · rw [cancel_task_not_pending _ _ _ _ hi hst hm]
          exact ⟨by simp [hm], by simp, fun _ => rfl⟩
      · rw [cancel_task_wrong_status _ _ _ _ hi hst]
        exact ⟨by simp [hst], by simp, fun _ => rfl⟩

/-- Exact success/failure characterisation of `reschedule_task`
(`src/scheduler.py` lines 289-328): `true` exactly when the record
exists with status `"scheduled"`, the new time parses, the timer is
still registered, and the re-registration `add_job` succeeds; every
`false` path leaves the task map unchanged, but a failing
re-registration (after `remove_job` already succeeded) additionally
deregisters the job's timer. -/
theorem reschedule_task_spec (s : TaskScheduler) (parse : String → Option Int)
    (now : Int) (id : Nat) (nt : String) (register : Option String) :
    ((reschedule_task s parse now id nt register).1 = true ↔
      ((∃ info, s.tasks id = some info ∧ info.status = "scheduled") ∧
        (parse nt).isSome ∧ id ∈ s.pendingJobs ∧ register = none)) ∧
    ((reschedule_task s parse now id nt register).1 = false →
      (reschedule_task s parse now id nt register).2.tasks = s.tasks) ∧
    (∀ msg, register = some msg →
      (∃ info, s.tasks id = some info ∧ info.status = "scheduled") →
      (parse nt).isSome → id ∈ s.pendingJobs →
      (reschedule_task s parse now id nt register).1 = false ∧
      (reschedule_task s parse now id nt register).2.pendingJobs =
        s.pendingJobs.erase id) := by
  cases hi : s.tasks id with
  | none =>
      rw [reschedule_task_not_found _ _ _ _ _ _ hi]
      refine ⟨by simp, fun _ => rfl, ?_⟩
      intro msg hmsg hex hp hm
      obtain ⟨info, hinfo, _⟩ := hex
      exact Option.noConfusion hinfo
  | some info =>
      by_cases hst : info.status = "scheduled"
      · cases hp : parse nt with
        | none =>
            rw [reschedule_task_bad_time _ _ _ _ _ _ _ hi hst hp]
            refine ⟨by simp, fun _ => rfl, ?_⟩
            intro msg hmsg hex hp2 hm
            exact absurd hp2 (by simp)
        | some d =>
            by_cases hm : id ∈ s.pendingJobs
            · cases register with
              | none =>
                  rw [reschedule_task_success _ _ _ _ _ _ d hi hst hp hm]
                  refine ⟨?_, ?_, ?_⟩
                  · simp [hst, hm]
                  · intro hfalse; cases hfalse
                  · intro msg hmsg; cases hmsg
              | some msg =>
                  rw [reschedule_task_register_fail _ _ _ _ _ _ d msg hi hst hp hm]
                  refine ⟨by simp, fun _ => rfl, ?_⟩
                  intro m hmm hex hp2 hm2
                  exact ⟨rfl, rfl⟩
            · rw [reschedule_task_not_pending _ _ _ _ _ _ _ _ hi hst hp hm]
              refine ⟨by simp [hm], fun _ => rfl, ?_⟩
              intro m hmm hex hp2 hm2
              exact absurd hm2 hm
      · rw [reschedule_task_wrong_status _ _ _ _ _ _ _ hi hst]
        refine ⟨by simp [hst], fun _ => rfl, ?_⟩
        intro m hmm hex hp2 hm2
        obtain ⟨i2, hi2, hs2⟩ := hex
        injection hi2 with h2
        rw [← h2] at hs2
        exact absurd hs2 hst

/-- Claim C6, amended.  Cancel returns `true` — and moves the record to
`cancelled` — exactly when the job exists, its status is `"scheduled"`,
and its timer is still registered; every other run returns `false`
without raising and with the whole state unchanged.  Reschedule returns
`true` exactly when the job exists with status `"scheduled"`, the new
time parses, the timer is still registered, and the re-registration
`add_job` succeeds; every failing run returns `false` without raising
and leaves every job record unchanged — but when the re-registration
fails after `remove_job` already succeeded, the still-`"scheduled"` job
is left with no registered timer (after which cancel and reschedule on
it return `false`). -/
theorem c6_cancel_reschedule_amended (s : TaskScheduler) (now : Int) (id : Nat)
    (parse : String → Option Int) (nt : String) (register : Option String) :
    ((cancel_task s now id).1 = true ↔
      ∃ info, s.tasks id = some info ∧ info.status = "scheduled" ∧
        id ∈ s.pendingJobs) ∧
    ((cancel_task s now id).1 = true →
      ∃ info', (cancel_task s now id).2.tasks id = some info' ∧
        info'.status = "cancelled") ∧
    ((cancel_task s now id).1 = false → (cancel_task s now id).2 = s) ∧
    ((reschedule_task s parse now id nt register).1 = true ↔
      ((∃ info, s.tasks id = some info ∧ info.status = "scheduled") ∧
        (parse nt).isSome ∧ id ∈ s.pendingJobs ∧ register = none)) ∧
    ((reschedule_task s parse now id nt register).1 = false →
      (reschedule_task s parse now id nt register).2.tasks = s.tasks) ∧
    (∀ msg, register = some msg →
      (∃ info, s.tasks id = some info ∧ info.status = "scheduled") →
      (parse nt).isSome → id ∈ s.pendingJobs →
      (reschedule_task s parse now id nt register).1 = false ∧
      (reschedule_task s parse now id nt register).2.pendingJobs =
        s.pendingJobs.erase id) :=
  ⟨(cancel_task_spec s now id).1, (cancel_task_spec s now id).2.1,
   (cancel_task_spec s now id).2.2,
   (reschedule_task_spec s parse now id nt register).1,
   (reschedule_task_spec s parse now id nt register).2.1,
   (reschedule_task_spec s parse now id nt register).2.2⟩

/-- Witness for the amended claim C6 at the concrete one-job scheduler
state: cancel succeeds, and a reschedule whose re-registration succeeds
returns `true`. -/
theorem c6_cancel_reschedule_amended_witness :
    (cancel_task oneJobScheduler 3 0).1 = true ∧
    (reschedule_task oneJobScheduler (fun _ => some 99) 3 0 "t" none).1 = true :=
  ⟨(c6_cancel_reschedule_amended oneJobScheduler 3 0
      (fun _ => some 99) "t" none).1.mpr
     ⟨oneJobInfo, by decide, by decide, by decide⟩,
   (c6_cancel_reschedule_amended oneJobScheduler 3 0
      (fun _ => some 99) "t" none).2.2.2.1.mpr
     ⟨⟨oneJobInfo, by decide, by decide⟩, rfl, by decide, rfl⟩⟩

/-- Claim C6 counterexample.  The claim says reschedule returns `true`
whenever the job exists, its status is `scheduled`, and the new time
parses — and cancel returns `true` whenever the job exists with status
`scheduled`.  But the re-registration `add_job` inside
`reschedule_task` (`src/scheduler.py` lines 310-317) can raise after
`remove_job` (line 309) already succeeded; the outer `except` (lines
326-328) then returns `False`.  In the reachable state below, the job
exists, is `scheduled`, and the time parses, yet reschedule returns
`false`; afterwards the record is still `scheduled` yet cancel also
returns `false` (its `remove_job` raises for the deregistered id). -/
theorem c6_counterexample :
    (((runSched initTaskScheduler
        [SchedOp.schedule (fun _ => none) 0 "consultation" "sess" "Dabby Consultant"
          none [] none,
         SchedOp.reschedule (fun _ => some 99) 3 0 "t" (some "boom")]).tasks 0).map
      (fun i => i.status) = some "scheduled") ∧
    (cancel_task (runSched initTaskScheduler
        [SchedOp.schedule (fun _ => none) 0 "consultation" "sess" "Dabby Consultant"
          none [] none,
         SchedOp.reschedule (fun _ => some 99) 3 0 "t" (some "boom")]) 4 0).1 =
      false ∧
    (reschedule_task oneJobScheduler (fun _ => some 99) 3 0 "t" (some "boom")).1 =
      false ∧
    ((oneJobScheduler.tasks 0).map (fun i => i.status) = some "scheduled") ∧
    ((fun (_ : String) => some (99 : Int)) "t").isSome = true := by decide

/-- Claim C7: when the schedule-time argument is absent or fails to parse,
`schedule_task` stores the job with `scheduled_for` exactly 60 seconds
after the current time and still returns an id (it never rejects a
malformed time); `reschedule_task`, by contrast, returns `false` for an
unparsable time. -/
theorem c7_schedule_default_time (s : TaskScheduler) (parse : String → Option Int)
    (now : Int) (tt sid at_ : String) (st : Option String)
    (ps : List (String × String)) (register : Option String)
    (hbad : ∀ x, st = some x → parse x = none) :
    (∃ info,
      (schedule_task s parse now tt sid at_ st ps register).2.tasks
        (schedule_task s parse now tt sid at_ st ps register).1 = some info ∧
      info.scheduled_for = now + 60) ∧
    (∀ id nt reg2, parse nt = none →
      (reschedule_task s parse now id nt reg2).1 = false) := by
  have hrd : scheduleRunDate parse now st = now + 60 := by
    cases st with
    | none => rfl
    | some x =>
        have hx := hbad x rfl
        simp [scheduleRunDate, hx]
  constructor
  · rw [schedule_task_fst]
    cases register with
    | none =>
        rw [schedule_task_none_tasks]
        exact ⟨_, updMap_same _ _ _, hrd⟩
    | some msg =>
        rw [schedule_task_some_tasks]
        exact ⟨_, updMap_same _ _ _, hrd⟩
  · intro id nt reg2 hp
    cases hi : s.tasks id with
    | none => rw [reschedule_task_not_found _ _ _ _ _ _ hi]
    | some info =>
        by_cases hst : info.status = "scheduled"
        · rw [reschedule_task_bad_time _ _ _ _ _ _ _ hi hst hp]
        · rw [reschedule_task_wrong_status _ _ _ _ _ _ _ hi hst]

/-- Witness for claim C7 with an unparsable schedule time. -/
theorem c7_schedule_default_time_witness :
    ((schedule_task initTaskScheduler (fun _ => none) 100 "audit_report" "sess"
        "Auditor Agent" (some "not-a-time") [] none).2.tasks
      (schedule_task initTaskScheduler (fun _ => none) 100 "audit_report" "sess"
        "Auditor Agent" (some "not-a-time") [] none).1).map
      (fun i => i.scheduled_for) = some (100 + 60) ∧
    (reschedule_task initTaskScheduler (fun _ => none) 100 0 "bad" none).1 = false := by
  obtain ⟨⟨info, h1, h2⟩, hre⟩ := c7_schedule_default_time initTaskScheduler
    (fun _ => none) 100 "audit_report" "sess" "Auditor Agent" (some "not-a-time")
    [] none (fun _ _ => rfl)
  exact ⟨by rw [h1]; simp [h2], hre 0 "bad" none rfl⟩

/-- Claim C9: `schedule_task` always returns a fresh job id whose record is
retrievable from the task map, even when timer registration fails — in
that case the stored record has status `"failed"` and carries the error
message; the call itself is total (never raises). -/
theorem c9_schedule_stores_record (s : TaskScheduler) (parse : String → Option Int)
    (now : Int) (tt sid at_ : String) (st : Option String)
    (ps : List (String × String)) (register : Option String)
    (hfresh : ∀ k, s.nextId ≤ k → s.tasks k = none) :
    s.tasks (schedule_task s parse now tt sid at_ st ps register).1 = none ∧
    (∃ info,
      (schedule_task s parse now tt sid at_ st ps register).2.tasks
        (schedule_task s parse now tt sid at_ st ps register).1 = some info ∧
      info.task_id = (schedule_task s parse now tt sid at_ st ps register).1 ∧
      (∀ msg, register = some msg →
        info.status = "failed" ∧ info.error = some msg)) := by
  rw [schedule_task_fst]
  constructor
  · exact hfresh s.nextId le_rfl
  · cases register with
    | none =>
        rw [schedule_task_none_tasks]
        exact ⟨_, updMap_same _ _ _, rfl, by intro msg hmsg; cases hmsg⟩
    | some msg =>
        rw [schedule_task_some_tasks]
        exact ⟨_, updMap_same _ _ _, rfl, by intro m hm; cases hm; exact ⟨rfl, rfl⟩⟩

/-- Witness for claim C9 with a failing timer registration. -/
theorem c9_schedule_stores_record_witness :
    initTaskScheduler.tasks (schedule_task initTaskScheduler (fun _ => some 7) 0
      "tax_calculation" "sess" "Tax Agent" none [] (some "kaboom")).1 = none ∧
    ((schedule_task initTaskScheduler (fun _ => some 7) 0 "tax_calculation"
        "sess" "Tax Agent" none [] (some "kaboom")).2.tasks
      (schedule_task initTaskScheduler (fun _ => some 7) 0 "tax_calculation"
        "sess" "Tax Agent" none [] (some "kaboom")).1).map
      (fun i => (i.status, i.error)) = some ("failed", some "kaboom") := by
  obtain ⟨hnone, info, hinfo, hid, hfail⟩ := c9_schedule_stores_record
    initTaskScheduler (fun _ => some 7) 0 "tax_calculation" "sess" "Tax Agent"
    none [] (some "kaboom") (fun _ _ => rfl)
  obtain ⟨hst, herr⟩ := hfail "kaboom" rfl
  exact ⟨hnone, by rw [hinfo]; simp [hst, herr]⟩

/-- Claim C10: invoking the internal execute operation with an unknown job
id is a no-op: it returns leaving the scheduler state (task map
included) unchanged, and does not raise (it is total). -/
theorem c10_execute_unknown_noop (s : TaskScheduler) (now : Int) (task_id : Nat)
    (outcome : Except String String) (h : s.tasks task_id = none) :
    execute_task s now task_id outcome = s := by
  unfold execute_task
  rw [h]

/-- Witness for claim C10 at the initial scheduler. -/
theorem c10_execute_unknown_noop_witness :
    initTaskScheduler.tasks 5 = none ∧
    execute_task initTaskScheduler 0 5 (Except.error "x") = initTaskScheduler :=
  ⟨rfl, c10_execute_unknown_noop initTaskScheduler 0 5 (Except.error "x") rfl⟩

/-! ## Load-balancer lemmas: healthy positions and selection -/

theorem mem_healthyIndicesFrom {i k : Nat} {pool : List AgentInstance}
    (h : i ∈ healthyIndicesFrom k pool) : k ≤ i ∧ i < k + pool.length := by
  induction pool generalizing k with
  | nil => simp [healthyIndicesFrom] at h
  | cons x xs ih =>
      rw [healthyIndicesFrom] at h
      simp only [List.length_cons]
      by_cases hx : healthyP x
      · rw [if_pos hx] at h
        rcases List.mem_cons.1 h with h | h
        · subst h; omega
        · have := ih h; omega
      · rw [if_neg hx] at h
        have := ih h; omega

theorem healthyIndicesFrom_filterMap :
    ∀ (pool : List AgentInstance) (pre : List AgentInstance),
      (healthyIndicesFrom pre.length pool).filterMap
        (fun i => (pre ++ pool)[i]?) = pool.filter healthyP := by
  intro pool
  induction pool with
  | nil => intro pre; simp [healthyIndicesFrom]
  | cons x xs ih =>
      intro pre
      have hget : (pre ++ x :: xs)[pre.length]? = some x := by
        rw [List.getElem?_append_right le_rfl]
        simp
      have harr : (pre ++ [x]) ++ xs = pre ++ x :: xs := by simp
      have hlen : (pre ++ [x]).length = pre.length + 1 := by simp
      have hih := ih (pre ++ [x])
      rw [hlen, harr] at hih
      rw [healthyIndicesFrom]
      by_cases hx : healthyP x
      · rw [if_pos hx, List.filterMap_cons_some hget, hih,
          List.filter_cons_of_pos hx]
      · rw [if_neg hx, hih, List.filter_cons_of_neg (by simpa using hx)]

theorem healthyIndices_filterMap (pool : List AgentInstance) :
    (healthyIndices pool).filterMap (fun i => pool[i]?) =
      pool.filter healthyP := by
  have h := healthyIndicesFrom_filterMap pool []
  simpa [healthyIndices] using h

theorem healthyIndicesFrom_eq_nil (pool : List AgentInstance) (k : Nat) :
    healthyIndicesFrom k pool = [] ↔ pool.filter healthyP = [] := by
  induction pool generalizing k with
  | nil => simp [healthyIndicesFrom]
  | cons x xs ih =>
      rw [healthyIndicesFrom]
      by_cases hx : healthyP x
      · rw [if_pos hx, List.filter_cons_of_pos hx]
        simp
      · rw [if_neg hx, List.filter_cons_of_neg (by simpa using hx)]
        exact ih (k + 1)

theorem healthyIndicesFrom_pairwise (pool : List AgentInstance) (k : Nat) :
    (healthyIndicesFrom k pool).Pairwise (· < ·) := by
  induction pool generalizing k with
  | nil => simp [healthyIndicesFrom]
  | cons x xs ih =>
      rw [healthyIndicesFrom]
      by_cases hx : healthyP x
      · rw [if_pos hx]
        refine List.Pairwise.cons ?_ (ih (k + 1))
        intro i hi
        have := mem_healthyIndicesFrom hi
        omega
      · rw [if_neg hx]
        exact ih (k + 1)

theorem filterMap_getD {f : Nat → Option AgentInstance} :
    ∀ (xs : List Nat) (ys : List AgentInstance), xs.filterMap f = ys →
      (∀ x ∈ xs, (f x).isSome) →
      xs.length = ys.length ∧
        ∀ j, j < xs.length → f (xs.getD j 0) = ys[j]? := by
  intro xs
  induction xs with
  | nil =>
      intro ys h _
      rw [List.filterMap_nil] at h
      subst h
      exact ⟨rfl, by intro j hj; simp at hj⟩
  | cons x xs ih =>
      intro ys h hall
      obtain ⟨b, hb⟩ := Option.isSome_iff_exists.1 (hall x (List.mem_cons_self _ _))
      rw [List.filterMap_cons_some hb] at h
      subst h
      obtain ⟨hlen, hget⟩ :=
        ih (xs.filterMap f) rfl (fun y hy => hall y (List.mem_cons_of_mem _ hy))
      refine ⟨by simp [hlen], ?_⟩
      intro j hj
      cases j with
      | zero => simpa using hb
      | succ j =>
          have hj' : j < xs.length := by simp at hj; omega
          simpa using hget j hj'

theorem getElem?_eq_some_getD {l : List Nat} {j : Nat} (h : j < l.length) :
    l[j]? = some (l.getD j 0) := by
  rw [List.getElem?_eq_getElem h, List.getD_eq_getElem l 0 h]

theorem argminFirstAux_lt :
    ∀ (xs : List Rat) (best : Rat) (bi i : Nat), bi < i →
      argminFirstAux best bi i xs < i + xs.length := by
  intro xs
  induction xs with
  | nil =>
      intro best bi i h
      rw [argminFirstAux]
      simpa using h
  | cons x xs ih =>
      intro best bi i h
      rw [argminFirstAux]
      simp only [List.length_cons]
      by_cases hx : x < best
      · rw [if_pos hx]
        have := ih x i (i + 1) (Nat.lt_succ_self i)
        omega
      · rw [if_neg hx]
        have := ih best bi (i + 1) (by omega)
        omega

theorem argminFirst_spec {l : List Rat} (h : l ≠ []) :
    ∃ j, argminFirst l = some j ∧ j < l.length := by
  cases l with
  | nil => cases h rfl
  | cons x xs =>
      refine ⟨argminFirstAux x 0 1 xs, rfl, ?_⟩
      have := argminFirstAux_lt xs x 0 1 Nat.one_pos
      simp only [List.length_cons]
      omega

theorem wrrWalk_spec :
    ∀ (ws : List Nat) (tgt : Nat), tgt < ws.sum →
      ∃ j, wrrWalk ws tgt = some j ∧ j < ws.length := by
  intro ws
  induction ws with
  | nil => intro tgt h; simp at h
  | cons w ws ih =>
      intro tgt h
      rw [wrrWalk]
      by_cases hw : tgt < w
      · exact ⟨0, by rw [if_pos hw], by simp⟩
      · rw [if_neg hw]
        have h2 : tgt - w < ws.sum := by
          rw [List.sum_cons] at h; omega
        obtain ⟨j, hj, hjl⟩ := ih (tgt - w) h2
        refine ⟨j + 1, by rw [hj]; rfl, ?_⟩
        simp only [List.length_cons]; omega

theorem select_instance_spec (lb : LoadBalancer) (cands : List AgentInstance)
    (t : String) (hne : cands ≠ [])
    (hws : lb.algorithm = .WEIGHTED_ROUND_ROBIN →
      (cands.map (fun i => i.weight)).sum ≠ 0) :
    ∃ j lb3, select_instance lb cands t = some (j, lb3) ∧ j < cands.length ∧
      lb3.agent_pools = lb.agent_pools ∧ lb3.algorithm = lb.algorithm ∧
      lb3.agent_weights = lb.agent_weights := by
  have hlen : cands.length ≠ 0 := fun h => hne (List.length_eq_zero.1 h)
  unfold select_instance
  cases halg : lb.algorithm with
  | ROUND_ROBIN =>
      unfold round_robin_select
      dsimp only
      rw [if_neg hlen]
      exact ⟨_, _, rfl, Nat.mod_lt _ (Nat.pos_of_ne_zero hlen), rfl, halg, rfl⟩
  | LEAST_CONNECTIONS =>
      have hmapne : cands.map (fun i => (i.active_connections : Rat)) ≠ [] := by
        simpa using hne
      obtain ⟨j, hj, hjl⟩ := argminFirst_spec hmapne
      rw [List.length_map] at hjl
      exact ⟨j, lb, by rw [hj]; rfl, hjl, rfl, halg, rfl⟩
  | WEIGHTED_ROUND_ROBIN =>
      unfold weighted_round_robin_select
      dsimp only
      have hsum := hws halg
      rw [if_neg hsum]
      have htgt : lb.round_robin_counters t % (cands.map (fun i => i.weight)).sum <
          (cands.map (fun i => i.weight)).sum :=
        Nat.mod_lt _ (Nat.pos_of_ne_zero hsum)
      obtain ⟨j, hj, hjl⟩ := wrrWalk_spec _ _ htgt
      rw [List.length_map] at hjl
      rw [hj]
      exact ⟨j, _, rfl, hjl, rfl, halg, rfl⟩
  | RESPONSE_TIME =>
      have hmapne : cands.map avg_response_time ≠ [] := by
        simpa using hne
      obtain ⟨j, hj, hjl⟩ := argminFirst_spec hmapne
      rw [List.length_map] at hjl
      exact ⟨j, lb, by rw [hj]; rfl, hjl, rfl, halg, rfl⟩

/-- The behaviour of one `get_agent` call when the pool already holds at
least one healthy instance: no instance is created; the configured
algorithm selects position `j` among the healthy candidates, the pool
entry at the corresponding pool position is metric-bumped, and that
instance is returned. -/
theorem get_agent_healthy_step (lb : LoadBalancer) (now : Int) (t : String)
    (hne : (lb.agent_pools t).filter healthyP ≠ [])
    (hws : lb.algorithm = .WEIGHTED_ROUND_ROBIN →
      (((lb.agent_pools t).filter healthyP).map (fun i => i.weight)).sum ≠ 0) :
    ∃ j lb3 sel,
      select_instance lb ((lb.agent_pools t).filter healthyP) t = some (j, lb3) ∧
      j < ((lb.agent_pools t).filter healthyP).length ∧
      ((lb.agent_pools t).filter healthyP)[j]? = some sel ∧
      get_agent lb now t =
        (some ((healthyIndices (lb.agent_pools t)).getD j 0, bumpSelected sel now),
         { lb3 with
             agent_pools := updMap lb3.agent_pools t
               ((lb.agent_pools t).set
                 ((healthyIndices (lb.agent_pools t)).getD j 0)
                 (bumpSelected sel now)) }) := by
  have hpoolne : lb.agent_pools t ≠ [] := by
    intro h
    exact hne (by rw [h]; rfl)
  have hIne : healthyIndices (lb.agent_pools t) ≠ [] := by
    intro h
    exact hne ((healthyIndicesFrom_eq_nil (lb.agent_pools t) 0).1 h)
  have hallsome : ∀ i ∈ healthyIndices (lb.agent_pools t),
      ((lb.agent_pools t)[i]?).isSome := by
    intro i hi
    have hb := mem_healthyIndicesFrom hi
    have hlt : i < (lb.agent_pools t).length := by omega
    rw [List.getElem?_eq_getElem hlt]
    rfl
  obtain ⟨hlenI, hgetI⟩ := filterMap_getD (healthyIndices (lb.agent_pools t))
    ((lb.agent_pools t).filter healthyP) (healthyIndices_filterMap _) hallsome
  obtain ⟨j, lb3, hsel, hjlt, hpools, halg, hweights⟩ :=
    select_instance_spec lb ((lb.agent_pools t).filter healthyP) t hne hws
  have hjI : j < (healthyIndices (lb.agent_pools t)).length := by omega
  have hIj : (healthyIndices (lb.agent_pools t))[j]? =
      some ((healthyIndices (lb.agent_pools t)).getD j 0) :=
    getElem?_eq_some_getD hjI
  have hcj : ((lb.agent_pools t).filter healthyP)[j]?.isSome := by
    rw [List.getElem?_eq_getElem hjlt]
    rfl
  obtain ⟨sel, hselj⟩ := Option.isSome_iff_exists.1 hcj
  have hpoolpi : (lb.agent_pools t)[(healthyIndices (lb.agent_pools t)).getD j 0]? =
      some sel := by
    rw [hgetI j hjI, hselj]
  refine ⟨j, lb3, sel, hsel, hjlt, hselj, ?_⟩
  have hempty : (lb.agent_pools t).isEmpty = false := by
    cases hp : lb.agent_pools t with
    | nil => exact absurd hp hpoolne
    | cons a l => rfl
  have hIempty : (healthyIndices (lb.agent_pools t)).isEmpty = false := by
    cases hp : healthyIndices (lb.agent_pools t) with
    | nil => exact absurd hp hIne
    | cons a l => rfl
  have hempty2 : ¬((lb.agent_pools t).isEmpty = true) := by
    rw [hempty]; exact Bool.false_ne_true
  have hIempty2 : ¬((healthyIndices (lb.agent_pools t)).isEmpty = true) := by
    rw [hIempty]; exact Bool.false_ne_true
  unfold get_agent
  dsimp only
  rw [if_neg hempty2]
  rw [if_neg hIempty2]
  rw [healthyIndices_filterMap, hsel]
  dsimp only
  rw [hIj]
  dsimp only
  rw [hpoolpi]

/-- Claim C1: for every worker type (`AgentFactory` succeeding for it, as
the spec requires of known/creatable types, and instance weights
respecting the data model's `weight ≥ 1`), `get_agent` returns an
instance — its first component is `some`, i.e. no exception reaches the
caller; and when the pool holds no healthy instance (including a missing
pool), exactly one fresh instance is created, appended to the pool, and
that very instance serves the request. -/
theorem c1_get_agent_total (lb : LoadBalancer) (now : Int) (t : String)
    (hw : ∀ inst ∈ lb.agent_pools t, 1 ≤ inst.weight)
    (hcw : ∀ w, lb.agent_weights t = some w → 1 ≤ w) :
    ((get_agent lb now t).1).isSome ∧
    ((lb.agent_pools t).filter healthyP = [] →
      ∃ inst lb',
        get_agent lb now t = (some ((lb.agent_pools t).length, inst), lb') ∧
        lb'.agent_pools t = lb.agent_pools t ++ [inst]) := by
  by_cases hh : (lb.agent_pools t).filter healthyP = []
  · -- no healthy instance: the fallback creates exactly one fresh instance
    have hfw : 1 ≤ (create_agent_instance lb now t).1.weight := by
      show 1 ≤ (lb.agent_weights t).getD 1
      cases hcwv : lb.agent_weights t with
      | none => simp
      | some w => simpa using hcw w hcwv
    by_cases hp : lb.agent_pools t = []
    · -- the pool does not exist yet: the first create serves the request
      have hpool1 : (create_agent_instance lb now t).2.agent_pools t =
          [(create_agent_instance lb now t).1] := by
        show updMap (lb.agent_pools) t ((lb.agent_pools t) ++
          [(create_agent_instance lb now t).1]) t = _
        rw [updMap_same, hp]
        rfl
      have hhi : healthyIndices [(create_agent_instance lb now t).1] = [0] := by
        rw [healthyIndices, healthyIndicesFrom, if_pos]
        · rfl
        · rfl
      obtain ⟨j, lb3, hsel, hjlt, hpools3, halg3, hw3⟩ :=
        select_instance_spec (create_agent_instance lb now t).2
          [(create_agent_instance lb now t).1] t (by simp)
          (fun _ => by
            simp only [List.map_cons, List.map_nil, List.sum_cons, List.sum_nil,
              Nat.add_zero]
            omega)
      have hj0 : j = 0 := Nat.lt_one_iff.1 (by simpa using hjlt)
      subst hj0
      have hIsE : (lb.agent_pools t).isEmpty = true := by rw [hp]; rfl
      have hga : get_agent lb now t =
          (some (0, bumpSelected (create_agent_instance lb now t).1 now),
           { lb3 with
               agent_pools := updMap lb3.agent_pools t
                 [bumpSelected (create_agent_instance lb now t).1 now] }) := by
        unfold get_agent
        dsimp only
        rw [if_pos hIsE]
        rw [hpool1, hhi]
        rw [if_neg (show ¬(([0] : List Nat).isEmpty = true) by simp)]
        dsimp only
        rw [hpool1]
        rw [show (([0] : List Nat).filterMap
          (fun i => [(create_agent_instance lb now t).1][i]?)) =
          [(create_agent_instance lb now t).1] from rfl]
        rw [hsel]
        dsimp only
        rw [show (([0] : List Nat))[0]? = some 0 from rfl]
        dsimp only
        rw [show [(create_agent_instance lb now t).1][0]? =
          some (create_agent_instance lb now t).1 from rfl]
        rfl
      refine ⟨by rw [hga]; rfl, fun _ => ?_⟩
      refine ⟨bumpSelected (create_agent_instance lb now t).1 now,
        (get_agent lb now t).2, ?_, ?_⟩
      · rw [hga, hp]
        rfl
      · rw [hga, hp]
        simp
    · -- the pool exists but every instance is unhealthy
      have hIsE : (lb.agent_pools t).isEmpty = false := by
        cases hq : lb.agent_pools t with
        | nil => exact absurd hq hp
        | cons a l => rfl
      have hInil : healthyIndices (lb.agent_pools t) = [] :=
        (healthyIndicesFrom_eq_nil (lb.agent_pools t) 0).2 hh
      have hpool2 : (create_agent_instance lb now t).2.agent_pools t =
          (lb.agent_pools t) ++ [(create_agent_instance lb now t).1] := by
        show updMap (lb.agent_pools) t ((lb.agent_pools t) ++
          [(create_agent_instance lb now t).1]) t = _
        rw [updMap_same]
      obtain ⟨j, lb3, hsel, hjlt, hpools3, halg3, hw3⟩ :=
        select_instance_spec (create_agent_instance lb now t).2
          [(create_agent_instance lb now t).1] t (by simp)
          (fun _ => by
            simp only [List.map_cons, List.map_nil, List.sum_cons, List.sum_nil,
              Nat.add_zero]
            omega)
      have hj0 : j = 0 := Nat.lt_one_iff.1 (by simpa using hjlt)
      subst hj0
      have hlen2 : ((create_agent_instance lb now t).2.agent_pools t).length - 1 =
          (lb.agent_pools t).length := by
        rw [hpool2]
        simp
      have hgetlast : ((create_agent_instance lb now t).2.agent_pools t)[
          (lb.agent_pools t).length]? = some (create_agent_instance lb now t).1 := by
        rw [hpool2]
        exact List.getElem?_concat_length _ _
      have hga : get_agent lb now t =
          (some ((lb.agent_pools t).length,
            bumpSelected (create_agent_instance lb now t).1 now),
           { lb3 with
               agent_pools := updMap lb3.agent_pools t
                 (((create_agent_instance lb now t).2.agent_pools t).set
                   (lb.agent_pools t).length
                   (bumpSelected (create_agent_instance lb now t).1 now)) }) := by
        unfold get_agent
        dsimp only
        rw [if_neg (show ¬((lb.agent_pools t).isEmpty = true) by rw [hIsE]; simp)]
        rw [hInil]
        rw [if_pos (show (([] : List Nat)).isEmpty = true from rfl)]
        dsimp only
        rw [hlen2]
        rw [show ([(lb.agent_pools t).length] : List Nat).filterMap
          (fun i => ((create_agent_instance lb now t).2.agent_pools t)[i]?) =
          ((create_agent_instance lb now t).2.agent_pools t)[
            (lb.agent_pools t).length]?.toList from rfl]
        rw [hgetlast]
        dsimp only [Option.toList]
        rw [hsel]
        dsimp only
        rw [show ([(lb.agent_pools t).length] : List Nat)[0]? =
          some (lb.agent_pools t).length from rfl]
        dsimp only
        rw [hgetlast]
      refine ⟨by rw [hga]; rfl, fun _ => ?_⟩
      refine ⟨bumpSelected (create_agent_instance lb now t).1 now,
        (get_agent lb now t).2, by rw [hga], ?_⟩
      rw [hga]
      show updMap lb3.agent_pools t _ t = _
      rw [updMap_same, hpool2]
      rw [List.set_append]
      simp
  · -- at least one healthy instance: no creation, selection succeeds
    have hws : lb.algorithm = .WEIGHTED_ROUND_ROBIN →
        (((lb.agent_pools t).filter healthyP).map (fun i => i.weight)).sum ≠ 0 := by
      intro _ hsum
      cases hcne : (lb.agent_pools t).filter healthyP with
      | nil => exact hh hcne
      | cons x xs =>
          have hxmem : x ∈ (lb.agent_pools t).filter healthyP := by
            rw [hcne]; exact List.mem_cons_self x xs
          have hx1 : 1 ≤ x.weight := hw x (List.mem_of_mem_filter hxmem)
          rw [hcne] at hsum
          simp only [List.map_cons, List.sum_cons] at hsum
          omega
    obtain ⟨j, lb3, sel, hsel, hjlt, hselj, hga⟩ :=
      get_agent_healthy_step lb now t hh hws
    rw [hga]
    exact ⟨rfl, fun hcontra => absurd hcontra hh⟩

/-- Witness for claim C1 at a pool whose only instance is unhealthy: the
call creates one fresh instance, appends it, and serves it. -/
theorem c1_get_agent_total_witness :
    ((get_agent unhealthyLB 0 "X").1).isSome = true :=
  (c1_get_agent_total unhealthyLB 0 "X" (by decide)
    (fun _ h => Option.noConfusion h)).1

/-! ## Stability of the healthy positions under a metric update -/

theorem healthyIndicesFrom_set :
    ∀ (pool : List AgentInstance) (k pi : Nat) (a b : AgentInstance),
      pool[pi]? = some a → healthyP b = healthyP a →
      healthyIndicesFrom k (pool.set pi b) = healthyIndicesFrom k pool := by
  intro pool
  induction pool with
  | nil => intro k pi a b h _; simp at h
  | cons x xs ih =>
      intro k pi a b h hb
      cases pi with
      | zero =>
          rw [List.getElem?_cons_zero] at h
          cases h
          rw [List.set_cons_zero, healthyIndicesFrom, healthyIndicesFrom, hb]
      | succ pi =>
          rw [List.getElem?_cons_succ] at h
          rw [List.set_cons_succ, healthyIndicesFrom, healthyIndicesFrom,
            ih (k + 1) pi a b h hb]

theorem filter_map_weight_set :
    ∀ (pool : List AgentInstance) (pi : Nat) (a b : AgentInstance),
      pool[pi]? = some a → healthyP b = healthyP a → b.weight = a.weight →
      ((pool.set pi b).filter healthyP).map (fun i => i.weight) =
        (pool.filter healthyP).map (fun i => i.weight) := by
  intro pool
  induction pool with
  | nil => intro pi a b h _ _; simp at h
  | cons x xs ih =>
      intro pi a b h hb hwt
      cases pi with
      | zero =>
          rw [List.getElem?_cons_zero] at h
          cases h
          rw [List.set_cons_zero]
          by_cases hx : healthyP x
          · rw [List.filter_cons_of_pos (by rw [hb]; exact hx),
              List.filter_cons_of_pos hx]
            simp [hwt]
          · rw [List.filter_cons_of_neg (by rw [hb]; simpa using hx),
              List.filter_cons_of_neg (by simpa using hx)]
      | succ pi =>
          rw [List.getElem?_cons_succ] at h
          rw [List.set_cons_succ]
          by_cases hx : healthyP x
          · rw [List.filter_cons_of_pos hx, List.filter_cons_of_pos hx]
            simp only [List.map_cons]
            rw [ih pi a b h hb hwt]
          · rw [List.filter_cons_of_neg (by simpa using hx),
              List.filter_cons_of_neg (by simpa using hx)]
            exact ih pi a b h hb hwt

theorem pairwise_lt_getD_inj {l : List Nat} (hp : l.Pairwise (· < ·)) {i j : Nat}
    (hi : i < l.length) (hj : j < l.length) (h : l.getD i 0 = l.getD j 0) :
    i = j := by
  rcases Nat.lt_trichotomy i j with hlt | heq | hgt
  · have hr := List.pairwise_iff_getElem.1 hp i j hi hj hlt
    rw [List.getD_eq_getElem l 0 hi, List.getD_eq_getElem l 0 hj] at h
    omega
  · exact heq
  · have hr := List.pairwise_iff_getElem.1 hp j i hj hi hgt
    rw [List.getD_eq_getElem l 0 hi, List.getD_eq_getElem l 0 hj] at h
    omega

theorem weight_ge_one_preserved {pool : List AgentInstance} {pi : Nat}
    {b : AgentInstance} (hw : ∀ inst ∈ pool, 1 ≤ inst.weight)
    (hbw : 1 ≤ b.weight) : ∀ inst ∈ pool.set pi b, 1 ≤ inst.weight := by
  intro inst hmem
  rcases List.mem_or_eq_of_mem_set hmem with h | h
  · exact hw inst h
  · rw [h]; exact hbw

/-- One `get_agent` call under weighted round-robin on a pool with healthy
instances: the walk over the healthy weights at point `cursor mod
total_weight` picks the candidate, the cursor advances by exactly one
(no modulo), and the pool's healthy positions and weights survive. -/
theorem get_agent_wrr_step (lb : LoadBalancer) (now : Int) (t : String)
    (halg : lb.algorithm = .WEIGHTED_ROUND_ROBIN)
    (hne : (lb.agent_pools t).filter healthyP ≠ [])
    (hw : ∀ inst ∈ lb.agent_pools t, 1 ≤ inst.weight) :
    ∃ j sel,
      wrrWalk (((lb.agent_pools t).filter healthyP).map (fun i => i.weight))
        (lb.round_robin_counters t %
          (((lb.agent_pools t).filter healthyP).map (fun i => i.weight)).sum) =
        some j ∧
      j < ((lb.agent_pools t).filter healthyP).length ∧
      ((lb.agent_pools t).filter healthyP)[j]? = some sel ∧
      (get_agent lb now t).1 =
        some ((healthyIndices (lb.agent_pools t)).getD j 0,
          bumpSelected sel now) ∧
      (get_agent lb now t).2.algorithm = lb.algorithm ∧
      (get_agent lb now t).2.agent_weights = lb.agent_weights ∧
      (get_agent lb now t).2.round_robin_counters t =
        lb.round_robin_counters t + 1 ∧
      healthyIndices ((get_agent lb now t).2.agent_pools t) =
        healthyIndices (lb.agent_pools t) ∧
      (((get_agent lb now t).2.agent_pools t).filter healthyP).map
        (fun i => i.weight) =
        ((lb.agent_pools t).filter healthyP).map (fun i => i.weight) ∧
      (∀ inst ∈ (get_agent lb now t).2.agent_pools t, 1 ≤ inst.weight) := by
  have hws : lb.algorithm = .WEIGHTED_ROUND_ROBIN →
      (((lb.agent_pools t).filter healthyP).map (fun i => i.weight)).sum ≠ 0 := by
    intro _ hsum
    cases hcne : (lb.agent_pools t).filter healthyP with
    | nil => exact hne hcne
    | cons x xs =>
        have hxmem : x ∈ (lb.agent_pools t).filter healthyP := by
          rw [hcne]; exact List.mem_cons_self x xs
        have hx1 : 1 ≤ x.weight := hw x (List.mem_of_mem_filter hxmem)
        rw [hcne] at hsum
        simp only [List.map_cons, List.sum_cons] at hsum
        omega
  obtain ⟨j, lb3, sel, hsel, hjlt, hselj, hga⟩ :=
    get_agent_healthy_step lb now t hne hws
  have hsum := hws halg
  obtain ⟨j0, hj0, hj0l⟩ := wrrWalk_spec
    (((lb.agent_pools t).filter healthyP).map (fun i => i.weight))
    (lb.round_robin_counters t %
      (((lb.agent_pools t).filter healthyP).map (fun i => i.weight)).sum)
    (Nat.mod_lt _ (Nat.pos_of_ne_zero hsum))
  have hsel2 : select_instance lb ((lb.agent_pools t).filter healthyP) t =
      some (j0,
        { lb with
            round_robin_counters :=
              updMap lb.round_robin_counters t (lb.round_robin_counters t + 1) }) := by
    unfold select_instance
    rw [halg]
    unfold weighted_round_robin_select
    dsimp only
    rw [if_neg hsum, hj0]
    dsimp only
    rw [halg]
  rw [hsel2] at hsel
  simp only [Option.some.injEq, Prod.mk.injEq] at hsel
  obtain ⟨hj0j, hlb3⟩ := hsel
  rw [hj0j] at hj0 hj0l
  -- the selected pool position and the preserved-pool facts
  have hallsome : ∀ i ∈ healthyIndices (lb.agent_pools t),
      ((lb.agent_pools t)[i]?).isSome := by
    intro i hi
    have hb := mem_healthyIndicesFrom hi
    have hlt : i < (lb.agent_pools t).length := by omega
    rw [List.getElem?_eq_getElem hlt]
    rfl
  obtain ⟨hlenI, hgetI⟩ := filterMap_getD (healthyIndices (lb.agent_pools t))
    ((lb.agent_pools t).filter healthyP) (healthyIndices_filterMap _) hallsome
  have hjI : j < (healthyIndices (lb.agent_pools t)).length := by omega
  have hpoolpi :
      (lb.agent_pools t)[(healthyIndices (lb.agent_pools t)).getD j 0]? =
        some sel := by
    rw [hgetI j hjI, hselj]
  have hselmem : sel ∈ (lb.agent_pools t).filter healthyP :=
    List.getElem?_mem hselj
  have hbh : healthyP (bumpSelected sel now) = healthyP sel := rfl
  have hbw : (bumpSelected sel now).weight = sel.weight := rfl
  refine ⟨j, sel, hj0, hjlt, hselj, ?_, ?_, ?_, ?_, ?_, ?_, ?_⟩
  · rw [hga]
  · rw [hga, ← hlb3]
  · rw [hga, ← hlb3]
  · rw [hga, ← hlb3]
    dsimp only
    rw [updMap_same]
  · rw [hga]
    dsimp only
    rw [updMap_same]
    exact healthyIndicesFrom_set (lb.agent_pools t) 0 _ sel
      (bumpSelected sel now) hpoolpi hbh
  · rw [hga]
    dsimp only
    rw [updMap_same]
    exact filter_map_weight_set (lb.agent_pools t) _ sel
      (bumpSelected sel now) hpoolpi hbh hbw
  · rw [hga]
    dsimp only
    rw [updMap_same]
    exact weight_ge_one_preserved hw
      (by rw [hbw]; exact hw sel (List.mem_of_mem_filter hselmem))

/-- One `get_agent` call under round-robin on a pool with healthy
instances: position `cursor mod n` among the `n` healthy candidates is
picked, the cursor becomes `(cursor + 1) mod n`, and the pool's healthy
positions survive. -/
theorem get_agent_rr_step (lb : LoadBalancer) (now : Int) (t : String)
    (halg : lb.algorithm = .ROUND_ROBIN)
    (hne : (lb.agent_pools t).filter healthyP ≠ []) :
    ∃ sel,
      ((lb.agent_pools t).filter healthyP)[lb.round_robin_counters t %
        ((lb.agent_pools t).filter healthyP).length]? = some sel ∧
      (get_agent lb now t).1 =
        some ((healthyIndices (lb.agent_pools t)).getD
          (lb.round_robin_counters t %
            ((lb.agent_pools t).filter healthyP).length) 0,
          bumpSelected sel now) ∧
      (get_agent lb now t).2.algorithm = lb.algorithm ∧
      (get_agent lb now t).2.round_robin_counters t =
        (lb.round_robin_counters t + 1) %
          ((lb.agent_pools t).filter healthyP).length ∧
      healthyIndices ((get_agent lb now t).2.agent_pools t) =
        healthyIndices (lb.agent_pools t) := by
  have hlen : ((lb.agent_pools t).filter healthyP).length ≠ 0 :=
    fun h => hne (List.length_eq_zero.1 h)
  obtain ⟨j, lb3, sel, hsel, hjlt, hselj, hga⟩ :=
    get_agent_healthy_step lb now t hne (fun h => by rw [halg] at h; cases h)
  have hsel2 : select_instance lb ((lb.agent_pools t).filter healthyP) t =
      some (lb.round_robin_counters t %
          ((lb.agent_pools t).filter healthyP).length,
        { lb with
            round_robin_counters :=
              updMap lb.round_robin_counters t ((lb.round_robin_counters t + 1) %
                ((lb.agent_pools t).filter healthyP).length) }) := by
    unfold select_instance
    rw [halg]
    unfold round_robin_select
    dsimp only
    rw [if_neg hlen, halg]
  rw [hsel2] at hsel
  simp only [Option.some.injEq, Prod.mk.injEq] at hsel
  obtain ⟨hj0j, hlb3⟩ := hsel
  rw [← hj0j] at hjlt hselj hga
  have hallsome : ∀ i ∈ healthyIndices (lb.agent_pools t),
      ((lb.agent_pools t)[i]?).isSome := by
    intro i hi
    have hb := mem_healthyIndicesFrom hi
    have hlt : i < (lb.agent_pools t).length := by omega
    rw [List.getElem?_eq_getElem hlt]
    rfl
  obtain ⟨hlenI, hgetI⟩ := filterMap_getD (healthyIndices (lb.agent_pools t))
    ((lb.agent_pools t).filter healthyP) (healthyIndices_filterMap _) hallsome
  have hjI : lb.round_robin_counters t %
      ((lb.agent_pools t).filter healthyP).length <
      (healthyIndices (lb.agent_pools t)).length := by omega
  have hpoolpi :
      (lb.agent_pools t)[(healthyIndices (lb.agent_pools t)).getD
        (lb.round_robin_counters t %
          ((lb.agent_pools t).filter healthyP).length) 0]? = some sel := by
    rw [hgetI _ hjI, hselj]
  have hbh : healthyP (bumpSelected sel now) = healthyP sel := rfl
  refine ⟨sel, hselj, ?_, ?_, ?_, ?_⟩
  · rw [hga]
  · rw [hga, ← hlb3]
  · rw [hga, ← hlb3]
    dsimp only
    rw [updMap_same]
  · rw [hga]
    dsimp only
    rw [updMap_same]
    exact healthyIndicesFrom_set (lb.agent_pools t) 0 _ sel
      (bumpSelected sel now) hpoolpi hbh

/-! ## Iterated acquisition -/

theorem acquireIter_succ (lb : LoadBalancer) (now : Int) (t : String) (k : Nat) :
    acquireIter lb now t (k + 1) =
      (get_agent (acquireIter lb now t k) now t).2 := rfl

theorem filter_ne_nil_of_healthyIndices {pool pool' : List AgentInstance}
    (h : healthyIndices pool' = healthyIndices pool)
    (hne : pool.filter healthyP ≠ []) : pool'.filter healthyP ≠ [] := by
  intro hcontra
  have h0 : healthyIndices pool' = [] := (healthyIndicesFrom_eq_nil _ 0).2 hcontra
  rw [h] at h0
  exact hne ((healthyIndicesFrom_eq_nil _ 0).1 h0)

/-- Invariant of a run of `get_agent` calls under weighted round-robin:
the healthy positions, their weights, and the weight bound survive, the
algorithm never changes, and the cursor has advanced by exactly the
number of calls. -/
theorem acquireIter_wrr_inv (lb : LoadBalancer) (now : Int) (t : String)
    (halg : lb.algorithm = .WEIGHTED_ROUND_ROBIN)
    (hne : (lb.agent_pools t).filter healthyP ≠ [])
    (hw : ∀ inst ∈ lb.agent_pools t, 1 ≤ inst.weight) :
    ∀ k,
      (acquireIter lb now t k).algorithm = .WEIGHTED_ROUND_ROBIN ∧
      healthyIndices ((acquireIter lb now t k).agent_pools t) =
        healthyIndices (lb.agent_pools t) ∧
      (((acquireIter lb now t k).agent_pools t).filter healthyP).map
        (fun i => i.weight) =
        ((lb.agent_pools t).filter healthyP).map (fun i => i.weight) ∧
      (∀ inst ∈ (acquireIter lb now t k).agent_pools t, 1 ≤ inst.weight) ∧
      (acquireIter lb now t k).round_robin_counters t =
        lb.round_robin_counters t + k := by
  intro k
  induction k with
  | zero => exact ⟨halg, rfl, rfl, hw, rfl⟩
  | succ k ih =>
      obtain ⟨ha, hI, hws, hwk, hc⟩ := ih
      have hnek : ((acquireIter lb now t k).agent_pools t).filter healthyP ≠ [] :=
        filter_ne_nil_of_healthyIndices hI hne
      obtain ⟨j, sel, hwalk, hjlt, hselj, hfst, halg2, hwt2, hc2, hI2, hws2, hwk2⟩ :=
        get_agent_wrr_step (acquireIter lb now t k) now t ha hnek hwk
      refine ⟨?_, ?_, ?_, ?_, ?_⟩
      · rw [acquireIter_succ, halg2, ha]
      · rw [acquireIter_succ, hI2, hI]
      · rw [acquireIter_succ, hws2, hws]
      · rw [acquireIter_succ]; exact hwk2
      · rw [acquireIter_succ, hc2, hc]; omega

/-- The pool position selected by the `k`-th call of a weighted
round-robin run: the accumulating walk at point
`(cursor + k) mod total_weight` over the (stable) healthy weights. -/
theorem selIdx_wrr_formula (lb : LoadBalancer) (now : Int) (t : String)
    (halg : lb.algorithm = .WEIGHTED_ROUND_ROBIN)
    (hne : (lb.agent_pools t).filter healthyP ≠ [])
    (hw : ∀ inst ∈ lb.agent_pools t, 1 ≤ inst.weight) (k : Nat) :
    ∃ j, wrrWalk (((lb.agent_pools t).filter healthyP).map (fun i => i.weight))
        ((lb.round_robin_counters t + k) %
          (((lb.agent_pools t).filter healthyP).map (fun i => i.weight)).sum) =
        some j ∧
      j < ((lb.agent_pools t).filter healthyP).length ∧
      selIdx lb now t k =
        some ((healthyIndices (lb.agent_pools t)).getD j 0) := by
  obtain ⟨ha, hI, hws, hwk, hc⟩ := acquireIter_wrr_inv lb now t halg hne hw k
  have hnek : ((acquireIter lb now t k).agent_pools t).filter healthyP ≠ [] :=
    filter_ne_nil_of_healthyIndices hI hne
  obtain ⟨j, sel, hwalk, hjlt, hselj, hfst, halg2, hwt2, hc2, hI2, hws2, hwk2⟩ :=
    get_agent_wrr_step (acquireIter lb now t k) now t ha hnek hwk
  rw [hws, hc] at hwalk
  have hlenf :
      (((acquireIter lb now t k).agent_pools t).filter healthyP).length =
      ((lb.agent_pools t).filter healthyP).length := by
    have hcong := congrArg List.length hws
    simpa using hcong
  refine ⟨j, hwalk, by omega, ?_⟩
  unfold selIdx
  rw [hfst]
  simp only [Option.map_some']
  rw [hI]

/-- Invariant of a run of `get_agent` calls under round-robin. -/
theorem acquireIter_rr_inv (lb : LoadBalancer) (now : Int) (t : String)
    (halg : lb.algorithm = .ROUND_ROBIN)
    (hne : (lb.agent_pools t).filter healthyP ≠ []) :
    ∀ k,
      (acquireIter lb now t k).algorithm = .ROUND_ROBIN ∧
      healthyIndices ((acquireIter lb now t k).agent_pools t) =
        healthyIndices (lb.agent_pools t) ∧
      (((acquireIter lb now t k).agent_pools t).filter healthyP).length =
        ((lb.agent_pools t).filter healthyP).length ∧
      (acquireIter lb now t k).round_robin_counters t %
          ((lb.agent_pools t).filter healthyP).length =
        (lb.round_robin_counters t + k) %
          ((lb.agent_pools t).filter healthyP).length := by
  intro k
  have hlenI0 : ∀ (pool : List AgentInstance),
      (healthyIndices pool).length = (pool.filter healthyP).length := by
    intro pool
    have hallsome : ∀ i ∈ healthyIndices pool, (pool[i]?).isSome := by
      intro i hi
      have hb := mem_healthyIndicesFrom hi
      have hlt : i < pool.length := by omega
      rw [List.getElem?_eq_getElem hlt]
      rfl
    exact (filterMap_getD (healthyIndices pool) (pool.filter healthyP)
      (healthyIndices_filterMap _) hallsome).1
  induction k with
  | zero => exact ⟨halg, rfl, rfl, rfl⟩
  | succ k ih =>
      obtain ⟨ha, hI, hlen, hc⟩ := ih
      have hnek : ((acquireIter lb now t k).agent_pools t).filter healthyP ≠ [] :=
        filter_ne_nil_of_healthyIndices hI hne
      obtain ⟨sel, hselj, hfst, halg2, hc2, hI2⟩ :=
        get_agent_rr_step (acquireIter lb now t k) now t ha hnek
      have hlen2 :
          (((get_agent (acquireIter lb now t k) now t).2.agent_pools t).filter
            healthyP).length =
          ((lb.agent_pools t).filter healthyP).length := by
        rw [← hlenI0, hI2, hI, hlenI0]
      refine ⟨?_, ?_, ?_, ?_⟩
      · rw [acquireIter_succ, halg2, ha]
      · rw [acquireIter_succ, hI2, hI]
      · rw [acquireIter_succ]; exact hlen2
      · rw [acquireIter_succ, hc2, hlen, Nat.mod_mod_of_dvd _ dvd_rfl,
          Nat.add_mod, hc, ← Nat.add_mod]
        rfl

/-! ## Counting lemmas for the weighted cycle -/

theorem wrrWalk_count :
    ∀ (ws : List Nat) (j : Nat), j < ws.length →
      ((Finset.range ws.sum).filter (fun tgt => wrrWalk ws tgt = some j)).card =
        ws.getD j 0 := by
  intro ws
  induction ws with
  | nil => intro j hj; simp at hj
  | cons w ws ih =>
      intro j hj
      cases j with
      | zero =>
          have hcond : ∀ tgt ∈ Finset.range (w :: ws).sum,
              (wrrWalk (w :: ws) tgt = some 0 ↔ tgt < w) := by
            intro tgt _
            rw [wrrWalk]
            by_cases hlt : tgt < w
            · simp [hlt]
            · simp only [if_neg hlt]
              constructor
              · intro hmap
                rcases hx : wrrWalk ws (tgt - w) with _ | x
                · rw [hx] at hmap; simp at hmap
                · rw [hx] at hmap; simp at hmap
              · intro h; exact absurd h hlt
          rw [Finset.filter_congr hcond]
          have hfe : (Finset.range (w :: ws).sum).filter (fun tgt => tgt < w) =
              Finset.range w := by
            ext x
            simp only [Finset.mem_filter, Finset.mem_range, List.sum_cons]
            omega
          rw [hfe, Finset.card_range]
          rfl
      | succ j =>
          have hj' : j < ws.length := by
            simp only [List.length_cons] at hj; omega
          have hcond : ∀ tgt ∈ Finset.range (w :: ws).sum,
              (wrrWalk (w :: ws) tgt = some (j + 1) ↔
                w ≤ tgt ∧ wrrWalk ws (tgt - w) = some j) := by
            intro tgt _
            rw [wrrWalk]
            by_cases hlt : tgt < w
            · simp only [if_pos hlt]
              constructor
              · intro h; simp at h
              · rintro ⟨h2, _⟩; omega
            · simp only [if_neg hlt]
              constructor
              · intro hmap
                rcases hx : wrrWalk ws (tgt - w) with _ | x
                · rw [hx] at hmap; simp at hmap
                · rw [hx] at hmap
                  simp only [Option.map_some', Option.some.injEq] at hmap
                  refine ⟨Nat.le_of_not_lt hlt, ?_⟩
                  have hxj : x = j := by omega
                  rw [hxj]
              · rintro ⟨_, hwalk⟩
                rw [hwalk]
                rfl
          rw [Finset.filter_congr hcond]
          rw [List.sum_cons, Finset.range_add, Finset.filter_union]
          have hdisj : Disjoint
              ((Finset.range w).filter
                (fun tgt => w ≤ tgt ∧ wrrWalk ws (tgt - w) = some j))
              ((((Finset.range ws.sum).map (addLeftEmbedding w))).filter
                (fun tgt => w ≤ tgt ∧ wrrWalk ws (tgt - w) = some j)) := by
            apply Finset.disjoint_filter_filter
            rw [Finset.disjoint_left]
            intro x hx hmem
            rw [Finset.mem_range] at hx
            rw [Finset.mem_map] at hmem
            obtain ⟨y, _, hy⟩ := hmem
            rw [addLeftEmbedding_apply] at hy
            omega
          rw [Finset.card_union_of_disjoint hdisj]
          have h1 : (Finset.range w).filter
              (fun tgt => w ≤ tgt ∧ wrrWalk ws (tgt - w) = some j) = ∅ := by
            rw [Finset.filter_eq_empty_iff]
            intro x hx
            rw [Finset.mem_range] at hx
            rintro ⟨h2, _⟩
            omega
          rw [h1, Finset.card_empty, Nat.zero_add]
          rw [Finset.filter_map, Finset.card_map]
          have hcong2 : ∀ y ∈ Finset.range ws.sum,
              (((fun tgt => w ≤ tgt ∧ wrrWalk ws (tgt - w) = some j) ∘
                (addLeftEmbedding w)) y ↔ wrrWalk ws y = some j) := by
            intro y _
            simp only [Function.comp_apply, addLeftEmbedding_apply]
            constructor
            · rintro ⟨_, hq⟩
              rw [show w + y - w = y from by omega] at hq
              exact hq
            · intro hq
              refine ⟨Nat.le_add_right w y, ?_⟩
              rw [show w + y - w = y from by omega]
              exact hq
          rw [Finset.filter_congr hcong2, ih j hj']
          rfl

theorem count_mod_rotate (p : Nat → Prop) [DecidablePred p] (W : Nat) :
    ∀ c, ((Finset.range W).filter (fun k => p ((c + k) % W))).card =
      ((Finset.range W).filter (fun r => p r)).card := by
  intro c
  induction c with
  | zero =>
      have hcong : ∀ k ∈ Finset.range W, (p ((0 + k) % W) ↔ p k) := by
        intro k hk
        rw [Finset.mem_range] at hk
        rw [Nat.zero_add, Nat.mod_eq_of_lt hk]
      rw [Finset.filter_congr hcong]
  | succ c ih =>
      rw [← ih, Finset.card_filter, Finset.card_filter]
      have hre : ∀ k ∈ Finset.range W,
          (if p ((c + 1 + k) % W) then (1 : Nat) else 0) =
          (fun x => if p ((c + x) % W) then (1 : Nat) else 0) (k + 1) := by
        intro k _
        have hx : c + 1 + k = c + (k + 1) := by omega
        dsimp only
        rw [hx]
      rw [Finset.sum_congr rfl hre]
      have h1 := Finset.sum_range_succ'
        (fun x => if p ((c + x) % W) then (1 : Nat) else 0) W
      have h2 := Finset.sum_range_succ
        (fun x => if p ((c + x) % W) then (1 : Nat) else 0) W
      have hfW : (fun x => if p ((c + x) % W) then (1 : Nat) else 0) W =
          (fun x => if p ((c + x) % W) then (1 : Nat) else 0) 0 := by
        dsimp only
        rw [Nat.add_mod_right, Nat.add_zero]
      beta_reduce at h1 h2 hfW ⊢
      omega

/-- The pool position selected by the `k`-th call of a round-robin run:
position `(cursor + k) mod n` among the `n` healthy positions. -/
theorem selIdx_rr_formula (lb : LoadBalancer) (now : Int) (t : String)
    (halg : lb.algorithm = .ROUND_ROBIN)
    (hne : (lb.agent_pools t).filter healthyP ≠ []) (k : Nat) :
    selIdx lb now t k =
      some ((healthyIndices (lb.agent_pools t)).getD
        ((lb.round_robin_counters t + k) %
          ((lb.agent_pools t).filter healthyP).length) 0) := by
  obtain ⟨ha, hI, hlen, hc⟩ := acquireIter_rr_inv lb now t halg hne k
  have hnek : ((acquireIter lb now t k).agent_pools t).filter healthyP ≠ [] :=
    filter_ne_nil_of_healthyIndices hI hne
  obtain ⟨sel, hselj, hfst, halg2, hc2, hI2⟩ :=
    get_agent_rr_step (acquireIter lb now t k) now t ha hnek
  unfold selIdx
  rw [hfst]
  simp only [Option.map_some']
  rw [hI, hlen, hc]

/-! ## Modular-arithmetic helpers for the round-robin window -/

theorem healthyIndices_length (pool : List AgentInstance) :
    (healthyIndices pool).length = (pool.filter healthyP).length := by
  have hallsome : ∀ i ∈ healthyIndices pool, (pool[i]?).isSome := by
    intro i hi
    have hb := mem_healthyIndicesFrom hi
    have hlt : i < pool.length := by omega
    rw [List.getElem?_eq_getElem hlt]
    rfl
  exact (filterMap_getD (healthyIndices pool) (pool.filter healthyP)
    (healthyIndices_filterMap _) hallsome).1

theorem mod_window_inj {b k k' n : Nat} (hk : k < n) (hk' : k' < n)
    (h : (b + k) % n = (b + k') % n) : k = k' := by
  have h2 : k ≡ k' [MOD n] := Nat.ModEq.add_left_cancel' b h
  unfold Nat.ModEq at h2
  rw [Nat.mod_eq_of_lt hk, Nat.mod_eq_of_lt hk'] at h2
  exact h2

theorem mod_shift_hit {b m n : Nat} (hb : b < n) (hm : m < n) :
    (b + ((m + n - b) % n)) % n = m := by
  by_cases hcase : b ≤ m
  · have h1 : m + n - b = (m - b) + n := by omega
    rw [h1, Nat.add_mod_right, Nat.mod_eq_of_lt (show m - b < n by omega)]
    rw [show b + (m - b) = m from by omega, Nat.mod_eq_of_lt hm]
  · have h1 : m + n - b < n := by omega
    rw [Nat.mod_eq_of_lt h1, show b + (m + n - b) = m + n from by omega,
      Nat.add_mod_right, Nat.mod_eq_of_lt hm]

/-- Claim C3: under weighted round-robin with a stable healthy pool (and
the data model's `weight ≥ 1`), every window of `total_weight`
consecutive acquisitions selects the `j`-th healthy instance exactly
its-weight times.  `a` is the window's starting call. -/
theorem c3_weighted_round_robin_cycle (lb : LoadBalancer) (now : Int) (t : String)
    (halg : lb.algorithm = .WEIGHTED_ROUND_ROBIN)
    (hne : (lb.agent_pools t).filter healthyP ≠ [])
    (hw : ∀ inst ∈ lb.agent_pools t, 1 ≤ inst.weight) (a j : Nat)
    (hj : j < ((lb.agent_pools t).filter healthyP).length) :
    ((Finset.range ((((lb.agent_pools t).filter healthyP).map
        (fun i => i.weight)).sum)).filter
      (fun k => selIdx lb now t (a + k) =
        some ((healthyIndices (lb.agent_pools t)).getD j 0))).card =
      (((lb.agent_pools t).filter healthyP).map (fun i => i.weight)).getD j 0 := by
  have hpair : (healthyIndices (lb.agent_pools t)).Pairwise (· < ·) :=
    healthyIndicesFrom_pairwise (lb.agent_pools t) 0
  have hlenI := healthyIndices_length (lb.agent_pools t)
  have hlenw : (((lb.agent_pools t).filter healthyP).map (fun i => i.weight)).length =
      ((lb.agent_pools t).filter healthyP).length := List.length_map _ _
  have hcond : ∀ k ∈ Finset.range
      ((((lb.agent_pools t).filter healthyP).map (fun i => i.weight)).sum),
      (selIdx lb now t (a + k) =
          some ((healthyIndices (lb.agent_pools t)).getD j 0) ↔
        wrrWalk (((lb.agent_pools t).filter healthyP).map (fun i => i.weight))
          ((lb.round_robin_counters t + a + k) %
            (((lb.agent_pools t).filter healthyP).map (fun i => i.weight)).sum) =
          some j) := by
    intro k _
    obtain ⟨jk, hwalk, hjk, hsel⟩ := selIdx_wrr_formula lb now t halg hne hw (a + k)
    rw [show lb.round_robin_counters t + (a + k) =
      lb.round_robin_counters t + a + k from by omega] at hwalk
    constructor
    · intro hs
      rw [hsel] at hs
      simp only [Option.some.injEq] at hs
      have hjkj : jk = j :=
        pairwise_lt_getD_inj hpair (by omega) (by omega) hs
      rw [← hjkj]
      exact hwalk
    · intro hv
      rw [hwalk] at hv
      simp only [Option.some.injEq] at hv
      rw [hsel, hv]
  rw [Finset.filter_congr hcond]
  rw [count_mod_rotate
    (fun r => wrrWalk (((lb.agent_pools t).filter healthyP).map
      (fun i => i.weight)) r = some j)
    ((((lb.agent_pools t).filter healthyP).map (fun i => i.weight)).sum)
    (lb.round_robin_counters t + a)]
  exact wrrWalk_count _ j (by omega)

/-- Witness for claim C3: three healthy instances with weights [3, 2, 2]
and cursor 6; over 7 consecutive acquisitions, pool position 0 (weight
3) is selected exactly 3 times. -/
theorem c3_weighted_round_robin_cycle_witness :
    ((Finset.range ((((wrrThreeLB.agent_pools "X").filter healthyP).map
        (fun i => i.weight)).sum)).filter
      (fun k => selIdx wrrThreeLB 0 "X" (0 + k) =
        some ((healthyIndices (wrrThreeLB.agent_pools "X")).getD 0 0))).card =
      (((wrrThreeLB.agent_pools "X").filter healthyP).map
        (fun i => i.weight)).getD 0 0 :=
  c3_weighted_round_robin_cycle wrrThreeLB 0 "X" rfl (by decide) (by decide)
    0 0 (by decide)

/-- Claim C4: under round-robin with a stable healthy pool of `n`
instances, within any window of `n` consecutive acquisitions (starting
at call `a` of the run) no instance repeats, every healthy instance is
visited, and the selection repeats exactly `n` calls later. -/
theorem c4_round_robin_period (lb : LoadBalancer) (now : Int) (t : String)
    (halg : lb.algorithm = .ROUND_ROBIN)
    (hne : (lb.agent_pools t).filter healthyP ≠ []) :
    (∀ a k k', k < ((lb.agent_pools t).filter healthyP).length →
      k' < ((lb.agent_pools t).filter healthyP).length → k ≠ k' →
      selIdx lb now t (a + k) ≠ selIdx lb now t (a + k')) ∧
    (∀ a i, i ∈ healthyIndices (lb.agent_pools t) →
      ∃ k, k < ((lb.agent_pools t).filter healthyP).length ∧
        selIdx lb now t (a + k) = some i) ∧
    (∀ a, selIdx lb now t
        (a + ((lb.agent_pools t).filter healthyP).length) =
      selIdx lb now t a) := by
  have hpair : (healthyIndices (lb.agent_pools t)).Pairwise (· < ·) :=
    healthyIndicesFrom_pairwise (lb.agent_pools t) 0
  have hlenI := healthyIndices_length (lb.agent_pools t)
  have hn : 0 < ((lb.agent_pools t).filter healthyP).length :=
    List.length_pos.2 hne
  refine ⟨?_, ?_, ?_⟩
  · intro a k k' hk hk' hkk hcontra
    rw [selIdx_rr_formula lb now t halg hne (a + k),
      selIdx_rr_formula lb now t halg hne (a + k')] at hcontra
    simp only [Option.some.injEq] at hcontra
    have heqm :
        (lb.round_robin_counters t + (a + k)) %
            ((lb.agent_pools t).filter healthyP).length =
        (lb.round_robin_counters t + (a + k')) %
            ((lb.agent_pools t).filter healthyP).length :=
      pairwise_lt_getD_inj hpair
        (by rw [hlenI]; exact Nat.mod_lt _ hn)
        (by rw [hlenI]; exact Nat.mod_lt _ hn) hcontra
    exact hkk (mod_window_inj hk hk' (by
      rw [show lb.round_robin_counters t + a + k =
        lb.round_robin_counters t + (a + k) from by omega,
        show lb.round_robin_counters t + a + k' =
          lb.round_robin_counters t + (a + k') from by omega]
      exact heqm))
  · intro a i hi
    obtain ⟨m, hm, hgm⟩ := List.getElem_of_mem hi
    have hmI : (healthyIndices (lb.agent_pools t)).getD m 0 = i := by
      rw [List.getD_eq_getElem _ 0 hm, hgm]
    refine ⟨(m + ((lb.agent_pools t).filter healthyP).length -
      (lb.round_robin_counters t + a) %
        ((lb.agent_pools t).filter healthyP).length) %
      ((lb.agent_pools t).filter healthyP).length, Nat.mod_lt _ hn, ?_⟩
    rw [selIdx_rr_formula lb now t halg hne]
    have hb : (lb.round_robin_counters t + a) %
        ((lb.agent_pools t).filter healthyP).length <
        ((lb.agent_pools t).filter healthyP).length := Nat.mod_lt _ hn
    have hm' : m < ((lb.agent_pools t).filter healthyP).length := by omega
    have hhit := mod_shift_hit hb hm'
    rw [show lb.round_robin_counters t +
        (a + ((m + ((lb.agent_pools t).filter healthyP).length -
          (lb.round_robin_counters t + a) %
            ((lb.agent_pools t).filter healthyP).length) %
          ((lb.agent_pools t).filter healthyP).length)) =
      (lb.round_robin_counters t + a) +
        ((m + ((lb.agent_pools t).filter healthyP).length -
          (lb.round_robin_counters t + a) %
            ((lb.agent_pools t).filter healthyP).length) %
          ((lb.agent_pools t).filter healthyP).length) from by omega]
    rw [Nat.add_mod ((lb.round_robin_counters t + a)) _ _]
    rw [Nat.mod_mod_of_dvd _ dvd_rfl]
    rw [hhit, hmI]
  · intro a
    rw [selIdx_rr_formula lb now t halg hne,
      selIdx_rr_formula lb now t halg hne]
    rw [show lb.round_robin_counters t +
        (a + ((lb.agent_pools t).filter healthyP).length) =
      (lb.round_robin_counters t + a) +
        ((lb.agent_pools t).filter healthyP).length from by omega]
    rw [Nat.add_mod_right]

/-- Witness for claim C4 at a concrete three-instance round-robin pool:
calls 0 and 1 pick different instances, and call 3 repeats call 0. -/
theorem c4_round_robin_period_witness :
    (selIdx rrThreeLB 0 "X" (0 + 0) ≠ selIdx rrThreeLB 0 "X" (0 + 1)) ∧
    (selIdx rrThreeLB 0 "X"
        (0 + ((rrThreeLB.agent_pools "X").filter healthyP).length) =
      selIdx rrThreeLB 0 "X" 0) := by
  obtain ⟨h1, _, h3⟩ := c4_round_robin_period rrThreeLB 0 "X" rfl (by decide)
  exact ⟨h1 0 0 1 (by decide) (by decide) (by decide), h3 0⟩

/-- Claim C8, amended: after one `get_agent` call on a pool with healthy
instances, under round-robin the cursor equals `(previous + 1) mod n`
where `n` is the number of healthy instances selected among; under
weighted round-robin the cursor equals `previous + 1`, *not* reduced
modulo the total weight (selection applies the modulus when reading the
cursor instead). -/
theorem c8_cursor_update_amended (lb : LoadBalancer) (now : Int) (t : String) :
    (lb.algorithm = .ROUND_ROBIN →
      (lb.agent_pools t).filter healthyP ≠ [] →
      (get_agent lb now t).2.round_robin_counters t =
        (lb.round_robin_counters t + 1) %
          ((lb.agent_pools t).filter healthyP).length) ∧
    (lb.algorithm = .WEIGHTED_ROUND_ROBIN →
      (lb.agent_pools t).filter healthyP ≠ [] →
      (∀ inst ∈ lb.agent_pools t, 1 ≤ inst.weight) →
      (get_agent lb now t).2.round_robin_counters t =
        lb.round_robin_counters t + 1) := by
  constructor
  · intro halg hne
    obtain ⟨sel, _, _, _, hc2, _⟩ := get_agent_rr_step lb now t halg hne
    exact hc2
  · intro halg hne hw
    obtain ⟨j, sel, _, _, _, _, _, _, hc2, _, _, _⟩ :=
      get_agent_wrr_step lb now t halg hne hw
    exact hc2

/-- Witness for the amended claim C8 at the concrete pools. -/
theorem c8_cursor_update_amended_witness :
    ((get_agent rrThreeLB 0 "X").2.round_robin_counters "X" =
      (rrThreeLB.round_robin_counters "X" + 1) %
        ((rrThreeLB.agent_pools "X").filter healthyP).length) ∧
    ((get_agent wrrThreeLB 0 "X").2.round_robin_counters "X" =
      wrrThreeLB.round_robin_counters "X" + 1) :=
  ⟨(c8_cursor_update_amended rrThreeLB 0 "X").1 rfl (by decide),
   (c8_cursor_update_amended wrrThreeLB 0 "X").2 rfl (by decide) (by decide)⟩

/-- Claim C8 counterexample.  The claim says the weighted-round-robin
cursor becomes `(previous + 1) mod total_weight`.  On a pool of total
weight 7 with cursor 6 the claim predicts cursor 0, but
`_weighted_round_robin_select` (`src/load_balancer.py` line 160) runs
`self.round_robin_counters[agent_type] += 1` with no reduction: the
cursor becomes 7. -/
theorem c8_counterexample :
    (get_agent wrrThreeLB 0 "X").2.round_robin_counters "X" = 7 ∧
    (wrrThreeLB.round_robin_counters "X" + 1) %
      (((wrrThreeLB.agent_pools "X").filter healthyP).map
        (fun i => i.weight)).sum = 0 ∧
    (7 : Nat) ≠ 0 := by decide

/-! ## Pool-size accounting (claim C5) -/

theorem create_pools_length (lb : LoadBalancer) (now : Int) (ty t : String) :
    ((create_agent_instance lb now ty).2.agent_pools t).length =
      if t = ty then (lb.agent_pools t).length + 1 else (lb.agent_pools t).length := by
  unfold create_agent_instance
  dsimp only
  rw [updMap_eq_ite]
  by_cases h : t = ty
  · rw [if_pos h, if_pos h, h, List.length_append]
    rfl
  · rw [if_neg h, if_neg h]

theorem create_pools_ge (lb : LoadBalancer) (now : Int) (ty t : String) :
    (lb.agent_pools t).length ≤ ((create_agent_instance lb now ty).2.agent_pools t).length := by
  rw [create_pools_length]
  split <;> omega

theorem add_pools_length (lb : LoadBalancer) (now : Int) (ty t : String) (w : Nat) :
    ((add_agent_instance lb now ty w).2.agent_pools t).length =
      if t = ty then (lb.agent_pools t).length + 1 else (lb.agent_pools t).length := by
  unfold add_agent_instance
  dsimp only
  rw [updMap_eq_ite]
  by_cases h : t = ty
  · rw [if_pos h, if_pos h, h, List.length_set, create_pools_length, if_pos rfl]
  · rw [if_neg h, if_neg h, create_pools_length, if_neg h]

theorem scale_up_pools_length (lb : LoadBalancer) (now : Int) (ty t : String) (n : Nat) :
    ((scale_up lb now ty n).agent_pools t).length =
      if t = ty then (lb.agent_pools t).length + n else (lb.agent_pools t).length := by
  induction n with
  | zero =>
      unfold scale_up
      simp
  | succ n ih =>
      unfold scale_up at ih ⊢
      rw [List.range_succ, List.foldl_append, List.foldl_cons, List.foldl_nil]
      rw [add_pools_length, ih]
      by_cases h : t = ty <;> (simp [h]; try omega)

theorem select_instance_pools {lb : LoadBalancer} {cands : List AgentInstance}
    {ty : String} {j : Nat} {lb3 : LoadBalancer}
    (h : select_instance lb cands ty = some (j, lb3)) :
    lb3.agent_pools = lb.agent_pools := by
  unfold select_instance at h
  cases halg : lb.algorithm with
  | ROUND_ROBIN =>
      rw [halg] at h
      dsimp only at h
      unfold round_robin_select at h
      dsimp only at h
      split at h
      · exact Option.noConfusion h
      · simp only [Option.some.injEq, Prod.mk.injEq] at h
        rw [← h.2]
  | LEAST_CONNECTIONS =>
      rw [halg] at h
      dsimp only at h
      rw [Option.map_eq_some'] at h
      obtain ⟨a, ha, h2⟩ := h
      simp only [Prod.mk.injEq] at h2
      rw [← h2.2]
  | WEIGHTED_ROUND_ROBIN =>
      rw [halg] at h
      dsimp only at h
      unfold weighted_round_robin_select at h
      dsimp only at h
      split at h
      · exact Option.noConfusion h
      · split at h
        · simp only [Option.some.injEq, Prod.mk.injEq] at h
          rw [← h.2]
        · simp only [Option.some.injEq, Prod.mk.injEq] at h
          rw [← h.2]
  | RESPONSE_TIME =>
      rw [halg] at h
      dsimp only at h
      rw [Option.map_eq_some'] at h
      obtain ⟨a, ha, h2⟩ := h
      simp only [Prod.mk.injEq] at h2
      rw [← h2.2]

theorem removeFirstById_length {l : List AgentInstance} {aid : String}
    {l' : List AgentInstance} (h : removeFirstById l aid = some l') :
    l'.length + 1 = l.length := by
  induction l generalizing l' with
  | nil => exact Option.noConfusion h
  | cons i is ih =>
      unfold removeFirstById at h
      split at h
      · simp only [Option.some.injEq] at h
        rw [← h]
        rfl
      · simp only [Option.map_eq_some'] at h
        obtain ⟨a, ha, h2⟩ := h
        have := ih ha
        rw [← h2]
        simp only [List.length_cons]
        omega

theorem remove_pools_spec (lb : LoadBalancer) (ty aid t : String) :
    ((remove_agent_instance lb ty aid).2.agent_pools t).length ≤
      (lb.agent_pools t).length ∧
    (lb.agent_pools t).length ≤
      ((remove_agent_instance lb ty aid).2.agent_pools t).length + 1 ∧
    (t ≠ ty → (remove_agent_instance lb ty aid).2.agent_pools t = lb.agent_pools t) := by
  unfold remove_agent_instance
  rcases hr : removeFirstById (lb.agent_pools ty) aid with _ | pool'
  · dsimp only
    exact ⟨le_refl _, Nat.le_succ _, fun _ => rfl⟩
  · dsimp only
    have hlen := removeFirstById_length hr
    by_cases h : t = ty
    · subst h
      rw [updMap_same]
      exact ⟨by omega, by omega, fun hc => absurd rfl hc⟩
    · rw [updMap_other _ _ _ _ h]
      exact ⟨le_refl _, Nat.le_succ _, fun _ => rfl⟩

theorem scale_down_fold_bounds (ty : String) (sorted : List AgentInstance) :
    ∀ (idxs : List Nat) (lb : LoadBalancer),
      (∀ t, t ≠ ty → (idxs.foldl (fun acc i =>
          match sorted[i]? with
          | some inst => (remove_agent_instance acc ty inst.agent_id).2
          | none => acc) lb).agent_pools t = lb.agent_pools t) ∧
      ((idxs.foldl (fun acc i =>
          match sorted[i]? with
          | some inst => (remove_agent_instance acc ty inst.agent_id).2
          | none => acc) lb).agent_pools ty).length ≤ (lb.agent_pools ty).length ∧
      (lb.agent_pools ty).length ≤ ((idxs.foldl (fun acc i =>
          match sorted[i]? with
          | some inst => (remove_agent_instance acc ty inst.agent_id).2
          | none => acc) lb).agent_pools ty).length + idxs.length := by
  intro idxs
  induction idxs with
  | nil =>
      intro lb
      exact ⟨fun _ _ => rfl, le_refl _, by simp⟩
  | cons i is ih =>
      intro lb
      simp only [List.foldl_cons]
      rcases hx : sorted[i]? with _ | inst
      · dsimp only
        obtain ⟨e1, e2, e3⟩ := ih lb
        exact ⟨e1, e2, by simp only [List.length_cons]; omega⟩
      · dsimp only
        obtain ⟨e1, e2, e3⟩ := ih ((remove_agent_instance lb ty inst.agent_id).2)
        refine ⟨fun t ht => ?_, ?_, ?_⟩
        · rw [e1 t ht, (remove_pools_spec lb ty inst.agent_id t).2.2 ht]
        · have r := (remove_pools_spec lb ty inst.agent_id ty).1
          omega
        · have r := (remove_pools_spec lb ty inst.agent_id ty).2.1
          simp only [List.length_cons]
          omega

theorem scale_down_pools_spec (lb : LoadBalancer) (ty : String) (n : Nat) :
    (∀ t, t ≠ ty → (scale_down lb ty n).agent_pools t = lb.agent_pools t) ∧
    ((scale_down lb ty n).agent_pools ty).length ≤ (lb.agent_pools ty).length ∧
    (1 ≤ (lb.agent_pools ty).length →
      1 ≤ ((scale_down lb ty n).agent_pools ty).length) := by
  unfold scale_down
  dsimp only
  split
  · exact ⟨fun _ _ => rfl, le_refl _, fun h => h⟩
  · rename_i hgt
    have hb := scale_down_fold_bounds ty ((lb.agent_pools ty).mergeSort
      (fun a b => a.active_connections ≤ b.active_connections)) (List.range n) lb
    rw [List.length_range] at hb
    exact ⟨hb.1, hb.2.1, fun h1 => by omega⟩

theorem get_agent_pools_ge (lb : LoadBalancer) (now : Int) (ty t : String) :
    (lb.agent_pools t).length ≤ ((get_agent lb now ty).2.agent_pools t).length := by
  unfold get_agent
  dsimp only
  generalize hlb1 : (if (lb.agent_pools ty).isEmpty = true
      then (create_agent_instance lb now ty).2 else lb) = lb1
  have h1 : (lb.agent_pools t).length ≤ (lb1.agent_pools t).length := by
    rw [← hlb1]
    split
    · exact create_pools_ge lb now ty t
    · exact le_refl _
  generalize hstep2 : (if (healthyIndices (lb1.agent_pools ty)).isEmpty = true then
      ([((create_agent_instance lb1 now ty).2.agent_pools ty).length - 1],
        (create_agent_instance lb1 now ty).2)
      else (healthyIndices (lb1.agent_pools ty), lb1)) = step2
  obtain ⟨idxs, lb2⟩ := step2
  have h2 : (lb1.agent_pools t).length ≤ (lb2.agent_pools t).length := by
    have hsnd := congrArg Prod.snd hstep2
    dsimp only at hsnd
    rw [← hsnd]
    split
    · exact create_pools_ge lb1 now ty t
    · exact le_refl _
  dsimp only
  split
  · dsimp only
    omega
  · rename_i j lb3 hsel
    have hpools3 := select_instance_pools hsel
    split
    · dsimp only
      rw [hpools3]
      omega
    · rename_i pi hpi
      split
      · dsimp only
        rw [hpools3]
        omega
      · rename_i sel hs
        dsimp only
        rw [updMap_eq_ite]
        by_cases ht : t = ty
        · subst ht
          rw [if_pos rfl, List.length_set]
          omega
        · rw [if_neg ht, hpools3]
          omega

theorem auto_scale_pools_bounds (lb : LoadBalancer) (now : Int) (t : String) :
    (1 ≤ (lb.agent_pools t).length →
      1 ≤ ((auto_scale lb now).agent_pools t).length) ∧
    ((lb.agent_pools t).length ≤ 5 →
      ((auto_scale lb now).agent_pools t).length ≤ 5) := by
  unfold auto_scale
  dsimp only
  split
  · exact ⟨fun h => h, fun h => h⟩
  · split
    · split
      · rename_i htot hlt
        have hs := scale_up_pools_length lb now t t 1
        rw [if_pos rfl] at hs
        rw [hs]
        exact ⟨fun _ => by omega, fun _ => by omega⟩
      · exact ⟨fun h => h, fun h => h⟩
    · split
      · rename_i hcond
        have hsd := scale_down_pools_spec lb t 1
        exact ⟨hsd.2.2, fun h5 => le_trans hsd.2.1 h5⟩
      · exact ⟨fun h => h, fun h => h⟩

theorem stepLB_pools_ge1 (lb : LoadBalancer) (op : LBOp) (t : String)
    (h : 1 ≤ (lb.agent_pools t).length) :
    1 ≤ ((stepLB lb op).agent_pools t).length := by
  cases op with
  | acquire now ty =>
      exact le_trans h (get_agent_pools_ge lb now ty t)
  | scaleUp now ty n =>
      show 1 ≤ ((scale_up lb now ty n).agent_pools t).length
      rw [scale_up_pools_length]
      split <;> omega
  | scaleDown ty n =>
      show 1 ≤ ((scale_down lb ty n).agent_pools t).length
      by_cases ht : t = ty
      · subst ht
        exact (scale_down_pools_spec lb t n).2.2 h
      · rw [(scale_down_pools_spec lb ty n).1 t ht]
        exact h
  | autoScale now =>
      exact (auto_scale_pools_bounds lb now t).1 h

theorem runLB_pools_ge1 (ops : List LBOp) : ∀ (lb : LoadBalancer) (t : String),
    1 ≤ (lb.agent_pools t).length → 1 ≤ ((runLB lb ops).agent_pools t).length := by
  induction ops with
  | nil => exact fun _ _ h => h
  | cons op ops ih =>
      intro lb t h
      exact ih (stepLB lb op) t (stepLB_pools_ge1 lb op t h)

/-- Claim C5, amended: the lower bound holds — once a pool has at least
one instance, no exposed operation (acquire, scale_up, scale_down,
auto_scale) ever empties it, because `scale_down` refuses to remove as
many instances as exist — and `auto_scale` respects the five-instance
ceiling (it only grows a pool it sees below five, by one).  The claimed
upper bound of 5 for *every* operation is false: `scale_up` itself has
no ceiling (see the counterexample). -/
theorem c5_pool_bounds_amended (lb : LoadBalancer) (t : String) :
    (∀ ops, 1 ≤ (lb.agent_pools t).length →
      1 ≤ ((runLB lb ops).agent_pools t).length) ∧
    (∀ now, (lb.agent_pools t).length ≤ 5 →
      ((auto_scale lb now).agent_pools t).length ≤ 5) :=
  ⟨fun ops h => runLB_pools_ge1 ops lb t h,
   fun now h => (auto_scale_pools_bounds lb now t).2 h⟩

/-- Witness for the amended claim C5: a freshly initialised balancer has
one "Tax Agent" instance; after a `scale_down("Tax Agent", 3)` request
the pool still has at least one instance, and one `auto_scale` pass
keeps the pool within five instances. -/
theorem c5_pool_bounds_amended_witness :
    1 ≤ ((runLB (initLoadBalancer .LEAST_CONNECTIONS 0)
        [.scaleDown "Tax Agent" 3]).agent_pools "Tax Agent").length ∧
    ((auto_scale (initLoadBalancer .LEAST_CONNECTIONS 0) 0).agent_pools
        "Tax Agent").length ≤ 5 :=
  ⟨(c5_pool_bounds_amended (initLoadBalancer .LEAST_CONNECTIONS 0) "Tax Agent").1
      [.scaleDown "Tax Agent" 3] (by decide),
   (c5_pool_bounds_amended (initLoadBalancer .LEAST_CONNECTIONS 0) "Tax Agent").2
      0 (by decide)⟩

/-- Claim C5 counterexample: `scale_up` (`src/load_balancer.py` lines
211-215) has no five-instance ceiling — the `len < 5` check lives only
inside `auto_scale`.  A single exposed `scale_up("Auditor Agent", 5)`
call on a freshly initialised balancer (pool size 1) grows that pool to
6 instances, violating the claimed invariant `size ≤ 5`. -/
theorem c5_counterexample :
    ((runLB (initLoadBalancer .ROUND_ROBIN 0)
        [.scaleUp 0 "Auditor Agent" 5]).agent_pools "Auditor Agent").length = 6 ∧
    ¬ (6 ≤ 5) := by decide

end APIBackend
